import Mathlib

/-!
Verification of `src/load_tweets.py` (twitter_postgres).

The script is embedded shallowly:

* JSON values (the decoded tweet objects) become the inductive `J`; Python's
  subscript / `.get` / iteration / `str()` / `.lower()` behaviours on them are
  modelled by small total functions returning `Except Err _` where CPython
  would raise (`KeyError`, `TypeError`, `IndexError`, `AttributeError`).
* The PostgreSQL state touched by the script becomes the record `Db`: the
  `urls`, `users`, `tweets`, `tweet_urls`, `tweet_mentions`, `tweet_tags` and
  `tweet_media` tables, plus the serial counter backing `urls.id_urls`.
  Column values that the script never validates are stored as raw `J`;
  key columns carry the DB-enforced type (`Int`/`Nat`), and inserting a
  non-integer or NULL into them yields a constraint/adapter error, as the
  database would.
* Each section of `insert_tweet` becomes one step function
  `... → Db → Except Err Db`; `insertTweetRun` chains them in source order,
  and `load_record` wraps the chain in the transaction semantics of
  `with connection.begin()`: commit on normal exit (including the early
  `return` of the idempotency gate), roll back to the initial state when any
  statement raises.

Sequential (single-connection) execution is modelled; for the one claim about
the conflict-then-lookup race in `get_id_urls`, the two statements are
additionally modelled over an abstract list of query responses so that
interleavings with a concurrent writer are expressible.
-/

/-- The error outcomes the script can hit: the CPython exception classes its
`try`/`except` blocks distinguish, plus database-side errors (statement/adapter
failure `dbError`, integrity violation `constraintError`). -/
inductive Err where
  | keyError
  | typeError
  | indexError
  | attrError
  | dbError
  | constraintError
deriving DecidableEq, Repr

/-- A decoded JSON value, as produced by `json.loads` for one input line. -/
inductive J where
  | null
  | bool (b : Bool)
  | num (n : Int)
  | str (s : String)
  | arr (elems : List J)
  | obj (fields : List (String × J))

/-- First binding of a key in a JSON object (keys are unique in decoded JSON). -/
def lookupKey : List (String × J) → String → Option J
  | [], _ => none
  | (k, v) :: rest, key => if k = key then some v else lookupKey rest key

/-- Python `x[key]` for a string key: returns the value on a dict, raises
`KeyError` when the key is absent, `TypeError` on any non-dict
(`None`, numbers, lists, strings are all unsubscriptable by a string key). -/
def Jsub : J → String → Except Err J
  | .obj kvs, k =>
    match lookupKey kvs k with
    | some v => .ok v
    | none => .error .keyError
  | .arr _, _ => .error .typeError
  | .str _, _ => .error .typeError
  | .null, _ => .error .typeError
  | .num _, _ => .error .typeError
  | .bool _, _ => .error .typeError

/-- Python `x.get(key, default)`: only dicts have `.get`; anything else raises
`AttributeError`. -/
def Jget (j : J) (k : String) (d : J) : Except Err J :=
  match j with
  | .obj kvs => .ok ((lookupKey kvs k).getD d)
  | _ => .error .attrError

/-- Python `x[i]` for a non-negative integer index: list indexing (IndexError
past the end), string indexing (a one-character string), `KeyError` on a
decoded-JSON dict (their keys are strings), `TypeError` otherwise. -/
def Jindex : J → Nat → Except Err J
  | .arr xs, i =>
    match xs[i]? with
    | some v => .ok v
    | none => .error .indexError
  | .str s, i =>
    match s.data[i]? with
    | some c => .ok (.str (String.mk [c]))
    | none => .error .indexError
  | .obj _, _ => .error .keyError
  | .null, _ => .error .typeError
  | .num _, _ => .error .typeError
  | .bool _, _ => .error .typeError

/-- Python iteration over a value: lists yield elements, strings yield their
characters, dicts yield their keys; other values raise `TypeError`. -/
def Jiter : J → Except Err (List J)
  | .arr xs => .ok xs
  | .str s => .ok (s.data.map (fun c => .str (String.mk [c])))
  | .obj kvs => .ok (kvs.map (fun kv => .str kv.1))
  | .null => .error .typeError
  | .num _ => .error .typeError
  | .bool _ => .error .typeError

/-- Python truthiness of a decoded JSON value. -/
def truthy : J → Bool
  | .null => false
  | .bool b => b
  | .num n => n != 0
  | .str s => s != ""
  | .arr xs => !xs.isEmpty
  | .obj kvs => !kvs.isEmpty

/-- Python `str()` of a decoded JSON value.  The script only stringifies the
numeric coordinate entries of `geo`/`bounding_box`; the container cases are
abbreviated (their exact `repr` text is never relevant here). -/
def pyStr : J → String
  | .null => "None"
  | .bool true => "True"
  | .bool false => "False"
  | .num n => toString n
  | .str s => s
  | .arr _ => "[list]"
  | .obj _ => "[dict]"

/-- Python `str.lower()` character-wise (ASCII case folding). -/
def toLowerStr (s : String) : String := String.mk (s.data.map Char.toLower)

/-- Python `.lower()`: a string method; any other receiver raises
`AttributeError`. -/
def pyLower : J → Except Err String
  | .str s => .ok (toLowerStr s)
  | _ => .error .attrError

/-- Python `s.split(',')`: the comma-separated pieces, `['']` for the empty
string. -/
def splitCommasAux : List Char → List Char → List String
  | [], acc => [String.mk acc.reverse]
  | c :: rest, acc =>
    if c = ',' then String.mk acc.reverse :: splitCommasAux rest []
    else splitCommasAux rest (c :: acc)

def splitCommas (s : String) : List String := splitCommasAux s.data []

/-- Python `s.strip()`: whitespace removed from both ends. -/
def dropLeadingWs : List Char → List Char
  | [] => []
  | c :: rest => if c.isWhitespace then dropLeadingWs rest else c :: rest

def stripStr (s : String) : String :=
  String.mk ((dropLeadingWs (dropLeadingWs s.data).reverse).reverse)

/-- The one character PostgreSQL text columns cannot represent. -/
def nullChar : Char := '\x00'

/-- `s.replace('\x00','')` from `remove_nulls` (line 38): deleting every
occurrence of the single-character pattern is exactly a character filter. -/
def removeNullChars (s : String) : String :=
  String.mk (s.data.filter (fun c => c != nullChar))

/-- `remove_nulls` (src/load_tweets.py lines 16–38): `None` passes through,
strings lose every `\x00`. -/
def remove_nulls : Option String → Option String
  | none => none
  | some s => some (removeNullChars s)

/-- `remove_nulls` as applied to a raw JSON field value: JSON `null` plays
Python `None`; applying `.replace` to any non-string raises
`AttributeError`. -/
def removeNullsJ : J → Except Err J
  | .null => .ok .null
  | .str s => .ok (.str (removeNullChars s))
  | _ => .error .attrError

/-- A row of the `users` table.  `id_users` is the bigint primary key; every
other column is nullable and is stored as the raw value the script binds
(stub inserts leave them NULL).  `id_urls` is the foreign key into `urls`. -/
structure UserRow where
  id_users : Int
  created_at : J := .null
  updated_at : J := .null
  id_urls : Option Nat := none
  friends_count : J := .null
  listed_count : J := .null
  favourites_count : J := .null
  statuses_count : J := .null
  protectedField : J := .null
  verified : J := .null
  screen_name : J := .null
  name : J := .null
  location : J := .null
  description : J := .null
  withheld_in_countries : J := .null

/-- A row of the `tweets` table.  `id_tweets` is the bigint primary key,
`id_users` the author foreign key, `in_reply_to_user_id` the nullable bigint
foreign key into `users` called out in the script's comment. -/
structure TweetRow where
  id_tweets : Int
  id_users : Int
  created_at : J := .null
  in_reply_to_status_id : J := .null
  in_reply_to_user_id : Option Int := none
  quoted_status_id : J := .null
  retweet_count : J := .null
  favorite_count : J := .null
  quote_count : J := .null
  withheld_copyright : J := .null
  withheld_in_countries : J := .null
  source : J := .null
  text : J := .null
  country_code : Option String := none
  state_code : Option String := none
  lang : J := .null
  place_name : J := .null
  geo : J := .null

/-- The database state touched by the script: the seven tables and the serial
counter backing `urls.id_urls`.  `urls` rows are `(id_urls, url)` pairs;
`tweet_media` rows are `(id_tweets, id_urls, type)`. -/
structure Db where
  urls : List (Nat × String) := []
  nextUrlId : Nat := 0
  users : List UserRow := []
  tweets : List TweetRow := []
  tweet_urls : List (Int × Nat) := []
  tweet_mentions : List (Int × Int) := []
  tweet_tags : List (Int × String) := []
  tweet_media : List (Int × Nat × J) := []

def emptyDb : Db := {}

def Db.hasUser (db : Db) (n : Int) : Bool :=
  db.users.any (fun u => u.id_users = n)

def Db.hasTweet (db : Db) (n : Int) : Bool :=
  db.tweets.any (fun tw => tw.id_tweets = n)

def Db.hasUrl (db : Db) (i : Nat) : Bool :=
  db.urls.any (fun r => r.1 = i)

/-- Referential integrity of the state: every foreign key stored in any row
resolves to an existing row (`users.id_urls → urls`, `tweets.id_users → users`,
`tweets.in_reply_to_user_id → users`, and both columns of each association
table). -/
def refIntegrity (db : Db) : Prop :=
  (∀ u ∈ db.users, ∀ i, u.id_urls = some i → db.hasUrl i = true) ∧
  (∀ tw ∈ db.tweets, db.hasUser tw.id_users = true ∧
    ∀ r, tw.in_reply_to_user_id = some r → db.hasUser r = true) ∧
  (∀ p ∈ db.tweet_urls, db.hasTweet p.1 = true ∧ db.hasUrl p.2 = true) ∧
  (∀ p ∈ db.tweet_mentions, db.hasTweet p.1 = true ∧ db.hasUser p.2 = true) ∧
  (∀ p ∈ db.tweet_tags, db.hasTweet p.1 = true) ∧
  (∀ p ∈ db.tweet_media, db.hasTweet p.1 = true ∧ db.hasUrl p.2.1 = true)

/-- The first statement of `get_id_urls` (lines 49–58):
`insert into urls (url) values (:url) on conflict do nothing returning id_urls`.
On conflict with the unique `url` constraint nothing is inserted or returned;
otherwise the new row gets the next serial id, which is returned. -/
def insertUrlReturning (s : String) (db : Db) : Option Nat × Db :=
  if db.urls.any (fun r => r.2 = s) then (none, db)
  else (some db.nextUrlId,
    { db with urls := db.urls ++ [(db.nextUrlId, s)], nextUrlId := db.nextUrlId + 1 })

/-- The follow-up statement of `get_id_urls` (lines 64–70):
`select id_urls from urls where url = :url`, first row. -/
def selectUrlId (s : String) (db : Db) : Option Nat :=
  (db.urls.find? (fun r => r.2 = s)).map (fun r => r.1)

/-- `get_id_urls` (lines 41–73) under sequential execution.  The bound
parameter must be a string (the script only ever passes the `url` /
`expanded_url` / `media_url` fields, guarding the one nullable case itself);
a non-string parameter fails statement adaptation.  If both the insert and
the lookup come back empty, line 72 `res[0]` subscripts `None` — a
`TypeError`, with no retry; sequentially that branch is unreachable. -/
def get_id_urls (u : J) (db : Db) : Except Err (Nat × Db) :=
  match u with
  | .str s =>
    match insertUrlReturning s db with
    | (some i, db1) => .ok (i, db1)
    | (none, db1) =>
      match selectUrlId s db1 with
      | some i => .ok (i, db1)
      | none => .error .typeError
  | _ => .error .dbError

/-- The two statements of `get_id_urls` with the connection's replies
abstracted: `responses` lists, in order, the row each successive statement
returns (`none` = empty result), so that interleavings with concurrent
writers are expressible.  The function consumes the insert's reply, then —
only when that was empty — the select's reply; an empty select reply hits
line 72's `res[0]` on `None` (`TypeError`).  No third statement is issued. -/
def getIdUrlsResponses (responses : List (Option Nat)) : Except Err Nat :=
  match responses with
  | [] => .error .dbError
  | r1 :: rest =>
    match r1 with
    | some i => .ok i
    | none =>
      match rest with
      | [] => .error .dbError
      | r2 :: _ =>
        match r2 with
        | some i => .ok i
        | none => .error .typeError

/-- Modelled from the spec: §4.3's `resolve_link` contract says a resolution
where neither the insert nor the lookup yields a row is "a pathological race
that should be retried once before surfacing" `ResolutionError`.  This
definition follows those words — after an empty insert reply and an empty
lookup reply it issues one more lookup before failing.  The retry is absent
from `get_id_urls` in src/load_tweets.py. -/
def resolveLinkSpec (responses : List (Option Nat)) : Except Err Nat :=
  match responses with
  | [] => .error .dbError
  | r1 :: rest =>
    match r1 with
    | some i => .ok i
    | none =>
      match rest with
      | [] => .error .dbError
      | r2 :: rest2 =>
        match r2 with
        | some i => .ok i
        | none =>
          match rest2 with
          | [] => .error .dbError
          | r3 :: _ =>
            match r3 with
            | some i => .ok i
            | none => .error .typeError

/-- Lines 108–111: resolve the posting user's profile url first —
`tweet['user']['url']` (both subscripts can raise), `None` maps to a NULL
`id_urls`, any other value goes through `get_id_urls` on the same
connection (inside the same transaction). -/
def userUrlStep (t : J) (db : Db) : Except Err (Option Nat × Db) :=
  match Jsub t "user" with
  | .error e => .error e
  | .ok user =>
    match Jsub user "url" with
    | .error e => .error e
    | .ok .null => .ok (none, db)
    | .ok v =>
      match get_id_urls v db with
      | .ok (i, db1) => .ok (some i, db1)
      | .error e => .error e

/-- The row bound by the `data` dict of lines 165–181 (shared by the insert
and the update statement).  `uid` is the already-extracted `user['id']`;
the remaining profile fields come from `user.get(...)` with the script's
defaults, the four text fields through `remove_nulls`, and
`withheld_in_countries` from the tweet object (line 180), not the user. -/
def mkUserRow (uid : Int) (uidUrls : Option Nat) (created_at updated_at friends listed favourites statuses prot verif sn nm loc desc wic : J) : UserRow :=
  { id_users := uid, created_at := created_at, updated_at := updated_at,
    id_urls := uidUrls, friends_count := friends, listed_count := listed,
    favourites_count := favourites, statuses_count := statuses,
    protectedField := prot, verified := verif, screen_name := sn, name := nm,
    location := loc, description := desc, withheld_in_countries := wic }

/-- Lines 113–182: the posting user's upsert.  `user = tweet.get('user', {})`,
existence check `select id_users from users where id_users = user['id']`
(a raising subscript), then the `data` dict is built (each `remove_nulls`
runs before any write) and either the update statement (rewriting every
column of the existing row) or the insert statement
(`on conflict do nothing`) is executed.  Binding a NULL / non-integer
`id_users` on the insert path violates the primary key.
`checkUserExists` is the `sql_check_user_id` select of lines 117–124: a NULL
parameter matches no row, a non-integer one fails against the bigint
column. -/
def checkUserExists (uidJ : J) (db : Db) : Except Err Bool :=
  match uidJ with
  | .num n => .ok (db.hasUser n)
  | .null => .ok false
  | _ => .error .dbError

def insertUserStep (t : J) (uidUrls : Option Nat) (db : Db) : Except Err Db := do
  let user ← Jget t "user" (.obj [])
  let uidJ ← Jsub user "id"
  let found ← checkUserExists uidJ db
  let created_at ← Jget user "created_at" .null
  let updated_at ← Jget user "updated_at" .null
  let friends ← Jget user "friends_count" (.num 0)
  let listed ← Jget user "listed_count" (.num 0)
  let favourites ← Jget user "favourites_count" (.num 0)
  let statuses ← Jget user "statuses_count" (.num 0)
  let prot ← Jget user "protected" (.bool false)
  let verif ← Jget user "verified" (.bool false)
  let sn ← Jget user "screen_name" .null >>= removeNullsJ
  let nm ← Jget user "name" .null >>= removeNullsJ
  let loc ← Jget user "location" .null >>= removeNullsJ
  let desc ← Jget user "description" .null >>= removeNullsJ
  let wic ← Jget t "withheld_in_countries" .null >>= removeNullsJ
  if found then
    match uidJ with
    | .num n =>
      .ok { db with users := db.users.map (fun r =>
        if r.id_users = n then
          mkUserRow n uidUrls created_at updated_at friends listed favourites statuses prot verif sn nm loc desc wic
        else r) }
    | _ => .ok db
  else
    match uidJ with
    | .num n =>
      if db.hasUser n then .ok db
      else .ok { db with users := db.users ++
        [mkUserRow n uidUrls created_at updated_at friends listed favourites statuses prot verif sn nm loc desc wic] }
    | .null => .error .constraintError
    | _ => .error .dbError

/-- Lines 190–193: the point branch — `tweet['geo']['coordinates']` (either
subscript may raise), its entries 0 and 1 stringified into
`POINT(x y)`. -/
def pointGeo (t : J) : Except Err J := do
  let g ← Jsub t "geo"
  let c ← Jsub g "coordinates"
  let c0 ← Jindex c 0
  let c1 ← Jindex c 1
  pure (.str ("POINT(" ++ pyStr c0 ++ " " ++ pyStr c1 ++ ")"))

/-- The inner loop of lines 201–202: each point contributes
`str(point[0]) + ' ' + str(point[1]) + ','`. -/
def ptsStr : List J → Except Err String
  | [] => .ok ""
  | p :: rest => do
    let x ← Jindex p 0
    let y ← Jindex p 1
    let r ← ptsStr rest
    pure (pyStr x ++ " " ++ pyStr y ++ "," ++ r)

/-- Lines 200–204: one ring — every point with a trailing comma, then
`poly[0]` repeated (closing the ring), parenthesised.  `poly` is iterated
first, then subscripted at 0 (IndexError on an empty ring). -/
def ringStrE (poly : J) : Except Err String := do
  let pts ← Jiter poly
  let body ← ptsStr pts
  let f ← Jindex poly 0
  let fx ← Jindex f 0
  let fy ← Jindex f 1
  pure ("(" ++ body ++ pyStr fx ++ " " ++ pyStr fy ++ ")")

/-- Lines 197–205: the rings in order, comma-separated (the loop prefixes a
comma for every index `i > 0`). -/
def polysStr : List J → Except Err String
  | [] => .ok ""
  | [p] => ringStrE p
  | p :: q :: rest => do
    let a ← ringStrE p
    let b ← polysStr (q :: rest)
    pure (a ++ "," ++ b)

/-- Lines 196–207: the polygon branch —
`tweet['place']['bounding_box']['coordinates']` iterated into
`POLYGON((...),(...))`. -/
def polyGeo (t : J) : Except Err J := do
  let p ← Jsub t "place"
  let bb ← Jsub p "bounding_box"
  let coords ← Jsub bb "coordinates"
  let polys ← Jiter coords
  let body ← polysStr polys
  pure (.str ("POLYGON(" ++ body ++ ")"))

/-- Lines 188–212: the geometry fallback chain.  `geo` starts as `''`; the
point branch is tried, `except TypeError` falls to the polygon branch,
whose `except KeyError` falls to the `geo_enabled` check
(`tweet['user']['geo_enabled']`, raising subscripts): truthy sets `geo`
to `None`, falsy leaves `''`.  Any other exception class propagates. -/
def extractGeo (t : J) : Except Err J :=
  match pointGeo t with
  | .ok g => .ok g
  | .error .typeError =>
    match polyGeo t with
    | .ok g => .ok g
    | .error .keyError =>
      match Jsub t "user" with
      | .error e => .error e
      | .ok user =>
        match Jsub user "geo_enabled" with
        | .error e => .error e
        | .ok ge => if truthy ge then .ok .null else .ok (.str "")
    | .error e => .error e
  | .error e => .error e

/-- Lines 214–217: `tweet['extended_tweet']['full_text']`, and on any
exception at all (a bare `except:`) `tweet['text']`. -/
def extractText (t : J) : Except Err J :=
  match Jsub t "extended_tweet" >>= (fun e => Jsub e "full_text") with
  | .ok v => .ok v
  | .error _ => Jsub t "text"

/-- Lines 219–222: `tweet['place']['country_code'].lower()`, with only
`TypeError` mapped to `None` (a missing key or a `None` country code
raise through). -/
def extractCountry (t : J) : Except Err (Option String) :=
  match (Jsub t "place" >>= (fun p => Jsub p "country_code")) >>= pyLower with
  | .ok s => .ok (some s)
  | .error .typeError => .ok none
  | .error e => .error e

/-- Lines 224–229: for `country_code == 'us'`,
`tweet['place']['full_name'].split(',')[-1].strip().lower()` (no exception
handler on this path), discarded when longer than two characters;
otherwise no state code. -/
def extractState (t : J) (cc : Option String) : Except Err (Option String) :=
  if cc = some "us" then do
    let fn ← Jsub t "place" >>= (fun p => Jsub p "full_name")
    match fn with
    | .str s =>
      let st := toLowerStr (stripStr ((splitCommas s).getLastD ""))
      .ok (if st.length > 2 then none else some st)
    | _ => .error .attrError
  else .ok none

/-- Lines 231–234: `tweet['place']['full_name']` with only `TypeError`
mapped to `None`. -/
def extractPlaceName (t : J) : Except Err J :=
  match Jsub t "place" >>= (fun p => Jsub p "full_name") with
  | .ok v => .ok v
  | .error .typeError => .ok .null
  | .error e => .error e

/-- The scalar fields lines 188–234 compute before the tweet row insert. -/
structure Fields where
  geo : J
  text : J
  country_code : Option String
  state_code : Option String
  place_name : J

/-- Lines 188–234 in source order: geometry, text, country code, state code,
place name. -/
def extractTweetFields (t : J) : Except Err Fields := do
  let geo ← extractGeo t
  let text ← extractText t
  let cc ← extractCountry t
  let sc ← extractState t cc
  let pn ← extractPlaceName t
  pure { geo := geo, text := text, country_code := cc, state_code := sc, place_name := pn }

/-- Lines 242–257: when `tweet.get('in_reply_to_user_id')` is not `None`,
check `users` for it and, when absent, insert the bare-identity stub row
(`insert into users (id_users) values (...) on conflict do nothing`).
A non-integer reply-target id fails parameter binding against the bigint
column. -/
def replyStubStep (t : J) (db : Db) : Except Err Db := do
  let r ← Jget t "in_reply_to_user_id" .null
  match r with
  | .null => .ok db
  | .num n =>
    if db.hasUser n then .ok db
    else .ok { db with users := db.users ++ [{ id_users := n }] }
  | _ => .error .dbError

/-- Lines 260–300: the tweet row insert.  Every bound value is computed
first (the `data` dict of lines 280–299): identifiers re-read with `.get`,
counters defaulting to 0, flags to false, `source`/`text`/`lang` through
`remove_nulls` (`lang` defaulting to `''`), the precomputed scalar fields,
and the raw `geo` value.  The bigint key columns then constrain the bind:
a NULL or non-integer `id_tweets`/`id_users` violates the primary
key / not-null constraint, a non-integer non-NULL `in_reply_to_user_id`
fails against its bigint column (`replyToInt` models that bind).  The
statement itself is `on conflict do nothing`. -/
def replyToInt : J → Except Err (Option Int)
  | .null => .ok none
  | .num n => .ok (some n)
  | _ => .error .dbError

def tweetInsertStep (t : J) (f : Fields) (db : Db) : Except Err Db := do
  let idJ ← Jget t "id" .null
  let user ← Jget t "user" (.obj [])
  let uidJ ← Jget user "id" .null
  let created_at ← Jget t "created_at" .null
  let replyStatus ← Jget t "in_reply_to_status_id" .null
  let replyJ ← Jget t "in_reply_to_user_id" .null
  let quoted ← Jget t "quoted_status_id" .null
  let rtCount ← Jget t "retweet_count" (.num 0)
  let favCount ← Jget t "favorite_count" (.num 0)
  let qCount ← Jget t "quote_count" (.num 0)
  let wc ← Jget t "withheld_copyright" (.bool false)
  let wic ← Jget t "withheld_in_countries" .null
  let source ← Jget t "source" .null >>= removeNullsJ
  let textS ← removeNullsJ f.text
  let lang ← Jget t "lang" (.str "") >>= removeNullsJ
  let reply ← replyToInt replyJ
  match idJ, uidJ with
  | .num idT, .num idU =>
    if db.hasTweet idT then .ok db
    else .ok { db with tweets := db.tweets ++
      [{ id_tweets := idT, id_users := idU, created_at := created_at,
         in_reply_to_status_id := replyStatus, in_reply_to_user_id := reply,
         quoted_status_id := quoted, retweet_count := rtCount,
         favorite_count := favCount, quote_count := qCount,
         withheld_copyright := wc, withheld_in_countries := wic,
         source := source, text := textS, country_code := f.country_code,
         state_code := f.state_code, lang := lang, place_name := f.place_name,
         geo := f.geo }] }
  | _, _ => .error .constraintError

/-- Lines 306–309: `tweet['extended_tweet']['entities']['urls']`, falling back
to `tweet['entities']['urls']` on `KeyError` only (a `TypeError` — e.g. a
null `extended_tweet` — propagates). -/
def extractUrlsList (t : J) : Except Err J :=
  match Jsub t "extended_tweet" >>= (fun e => Jsub e "entities") >>= (fun e => Jsub e "urls") with
  | .ok v => .ok v
  | .error .keyError => Jsub t "entities" >>= (fun e => Jsub e "urls")
  | .error e => .error e

/-- `insert into tweet_urls (id_tweets, id_urls) values (...) on conflict do
nothing` (lines 310–317). -/
def insertTweetUrl (idT : Int) (iu : Nat) (db : Db) : Db :=
  if db.tweet_urls.any (fun p => p.1 = idT && p.2 = iu) then db
  else { db with tweet_urls := db.tweet_urls ++ [(idT, iu)] }

/-- Lines 319–325: per url entity, `url['expanded_url']` resolved through
`get_id_urls`, then the association insert (whose NULL/non-integer
`id_tweets` bind would violate the association's key). -/
def urlsLoop (idJ : J) : List J → Db → Except Err Db
  | [], db => .ok db
  | u :: rest, db => do
    let eu ← Jsub u "expanded_url"
    let (iu, db1) ← get_id_urls eu db
    match idJ with
    | .num idT => urlsLoop idJ rest (insertTweetUrl idT iu db1)
    | .null => .error .constraintError
    | _ => .error .dbError

/-- Lines 330–333: the mentions container with the same
`KeyError`-only fallback. -/
def extractMentionsList (t : J) : Except Err J :=
  match Jsub t "extended_tweet" >>= (fun e => Jsub e "entities") >>= (fun e => Jsub e "user_mentions") with
  | .ok v => .ok v
  | .error .keyError => Jsub t "entities" >>= (fun e => Jsub e "user_mentions")
  | .error e => .error e

/-- Lines 345–358: the unhydrated mention stub —
`insert into users (id_users, screen_name, name) ... on conflict do
nothing`. -/
def mentionStubInsert (mid : Int) (sn nm : J) (db : Db) : Db :=
  if db.hasUser mid then db
  else { db with users := db.users ++ [{ id_users := mid, screen_name := sn, name := nm }] }

/-- `insert into tweet_mentions (id_tweets, id_users) values (...) on conflict
do nothing` (lines 361–371). -/
def insertMention (idT : Int) (mid : Int) (db : Db) : Db :=
  if db.tweet_mentions.any (fun p => p.1 = idT && p.2 = mid) then db
  else { db with tweet_mentions := db.tweet_mentions ++ [(idT, mid)] }

/-- Lines 334–371: per mention, the stub insert (its `screen_name`/`name`
pass through `remove_nulls`; a NULL `mention.get('id')` violates the
primary key) followed by the association insert. -/
def mentionsLoop (idJ : J) : List J → Db → Except Err Db
  | [], db => .ok db
  | m :: rest, db => do
    let midJ ← Jget m "id" .null
    let sn ← Jget m "screen_name" .null >>= removeNullsJ
    let nm ← Jget m "name" .null >>= removeNullsJ
    match midJ with
    | .num mid =>
      let db1 := mentionStubInsert mid sn nm db
      match idJ with
      | .num idT => mentionsLoop idJ rest (insertMention idT mid db1)
      | .null => .error .constraintError
      | _ => .error .dbError
    | .null => .error .constraintError
    | _ => .error .dbError

/-- Lines 376–381: hashtags and symbols from the extended container, both
re-read from the base container when either lookup raises `KeyError`. -/
def extractTagContainers (t : J) : Except Err (J × J) :=
  match (do
    let e ← Jsub t "extended_tweet" >>= (fun x => Jsub x "entities")
    let h ← Jsub e "hashtags"
    let c ← Jsub e "symbols"
    Except.ok (h, c)) with
  | .ok p => .ok p
  | .error .keyError => do
    let e ← Jsub t "entities"
    let h ← Jsub e "hashtags"
    let c ← Jsub e "symbols"
    Except.ok (h, c)
  | .error e => .error e

/-- Line 383's comprehensions: each entity's `['text']` prefixed with `#`
or `$` (string concatenation with a non-string raises `TypeError`). -/
def tagList (pfx : String) : List J → Except Err (List String)
  | [] => .ok []
  | h :: rest => do
    let tx ← Jsub h "text"
    match tx with
    | .str s => do
      let r ← tagList pfx rest
      Except.ok ((pfx ++ s) :: r)
    | _ => Except.error Err.typeError

/-- `insert into tweet_tags (id_tweets, tag) values (...) on conflict do
nothing` (lines 385–392). -/
def insertTag (idT : Int) (tg : String) (db : Db) : Db :=
  if db.tweet_tags.any (fun p => p.1 = idT && p.2 = tg) then db
  else { db with tweet_tags := db.tweet_tags ++ [(idT, tg)] }

/-- Lines 394–397: each assembled tag sanitized with `remove_nulls` and
inserted. -/
def tagsLoop (idJ : J) : List String → Db → Except Err Db
  | [], db => .ok db
  | tg :: rest, db =>
    match idJ with
    | .num idT => tagsLoop idJ rest (insertTag idT (removeNullChars tg) db)
    | .null => .error .constraintError
    | _ => .error .dbError

/-- Lines 403–409: the media container —
`tweet['extended_tweet']['extended_entities']['media']`, then
`tweet['extended_entities']['media']`, each `KeyError` falling through,
ending at the empty list. -/
def extractMedia (t : J) : Except Err J :=
  match Jsub t "extended_tweet" >>= (fun e => Jsub e "extended_entities") >>= (fun e => Jsub e "media") with
  | .ok v => .ok v
  | .error .keyError =>
    match Jsub t "extended_entities" >>= (fun e => Jsub e "media") with
    | .ok v => .ok v
    | .error .keyError => .ok (.arr [])
    | .error e => .error e
  | .error e => .error e

/-- `insert into tweet_media (id_tweets, id_urls, type) values (...) on
conflict do nothing` (lines 411–418), keyed by (post, link). -/
def insertMedia (idT : Int) (iu : Nat) (ty : J) (db : Db) : Db :=
  if db.tweet_media.any (fun p => p.1 = idT && p.2.1 = iu) then db
  else { db with tweet_media := db.tweet_media ++ [(idT, iu, ty)] }

/-- Lines 420–426: per media entity, `medium['media_url']` resolved through
`get_id_urls`, then the association insert with `medium.get('type')`. -/
def mediaLoop (idJ : J) : List J → Db → Except Err Db
  | [], db => .ok db
  | m :: rest, db => do
    let mu ← Jsub m "media_url"
    let (iu, db1) ← get_id_urls mu db
    let ty ← Jget m "type" .null
    match idJ with
    | .num idT => mediaLoop idJ rest (insertMedia idT iu ty db1)
    | .null => .error .constraintError
    | _ => .error .dbError

/-- Line 383: both comprehensions evaluated in order — hashtags with `#`,
symbols with `$` — and concatenated. -/
def buildTags (hs cs : J) : Except Err (List String) := do
  let hl ← Jiter hs
  let cl ← Jiter cs
  let a ← tagList "#" hl
  let b ← tagList "$" cl
  Except.ok (a ++ b)

/-- The outcome of one record, per the loader's contract: the gate's early
return, a completed insert, or a raised statement. -/
inductive Outcome where
  | inserted
  | skippedAlreadyPresent
  | failed (e : Err)
deriving DecidableEq, Repr

/-- The uncommitted result of running `insert_tweet`'s body on one
connection: either a normal exit with the connection's state, or an
exception together with the state the connection had accumulated (which the
transaction will discard). -/
inductive RunResult where
  | ok (o : Outcome) (db : Db)
  | err (e : Err) (uncommitted : Db)

/-- The state carried by a run result (committed-to-be or uncommitted). -/
def RunResult.stateOf : RunResult → Db
  | .ok _ db => db
  | .err _ db => db

/-- Lines 96–104: the idempotency gate —
`select id_tweets from tweets where id_tweets = tweet['id']`; a NULL
parameter matches nothing, a non-integer one fails against the bigint
column. -/
def gateCheck (t : J) (db : Db) : Except Err Bool := do
  let idJ ← Jsub t "id"
  match idJ with
  | .num n => Except.ok (db.hasTweet n)
  | .null => Except.ok false
  | _ => Except.error Err.dbError

/-- The body of `insert_tweet` (lines 94–426) on one connection, in source
order: gate, user-url resolution, user upsert, scalar-field extraction,
reply-target stub, tweet insert, then the url / mention / tag / media
loops.  A raising statement stops the run, carrying the uncommitted
state. -/
def insertTweetRun (t : J) (db : Db) : RunResult :=
  match gateCheck t db with
  | .error e => .err e db
  | .ok true => .ok .skippedAlreadyPresent db
  | .ok false =>
    match userUrlStep t db with
    | .error e => .err e db
    | .ok (uidUrls, db1) =>
      match insertUserStep t uidUrls db1 with
      | .error e => .err e db1
      | .ok db2 =>
        match extractTweetFields t with
        | .error e => .err e db2
        | .ok f =>
          match replyStubStep t db2 with
          | .error e => .err e db2
          | .ok db3 =>
            match tweetInsertStep t f db3 with
            | .error e => .err e db3
            | .ok db4 =>
              match extractUrlsList t >>= Jiter with
              | .error e => .err e db4
              | .ok us =>
                match Jget t "id" .null with
                | .error e => .err e db4
                | .ok idJ =>
                  match urlsLoop idJ us db4 with
                  | .error e => .err e db4
                  | .ok db5 =>
                    match extractMentionsList t >>= Jiter with
                    | .error e => .err e db5
                    | .ok ms =>
                      match mentionsLoop idJ ms db5 with
                      | .error e => .err e db5
                      | .ok db6 =>
                        match extractTagContainers t with
                        | .error e => .err e db6
                        | .ok (hs, cs) =>
                          match buildTags hs cs with
                          | .error e => .err e db6
                          | .ok tags =>
                            match tagsLoop idJ tags db6 with
                            | .error e => .err e db6
                            | .ok db7 =>
                              match extractMedia t >>= Jiter with
                              | .error e => .err e db7
                              | .ok med =>
                                match mediaLoop idJ med db7 with
                                | .error e => .err e db7
                                | .ok db8 => .ok .inserted db8

/-- `with connection.begin()` around the body (lines 92–94): a normal exit —
including the gate's early `return` — commits the connection's state; an
exception rolls the transaction back to the state it began with, and the
record is reported failed. -/
def load_record (t : J) (db : Db) : Outcome × Db :=
  match insertTweetRun t db with
  | .ok o db1 => (o, db1)
  | .err e _ => (.failed e, db)

/-- A fully-populated input record exercising every table: polygon place,
reply target, one url entity, one mention, a hashtag and a symbol, one
media attachment. -/
def tOk : J := .obj [
  ("id", .num 100),
  ("user", .obj [("id", .num 50), ("url", .str "http://u"), ("geo_enabled", .bool true),
    ("screen_name", .str "s"), ("name", .str "n"), ("location", .str "L"),
    ("description", .str "d"), ("created_at", .str "c"), ("friends_count", .num 3)]),
  ("geo", .null),
  ("place", .obj [("bounding_box", .obj [("coordinates",
      .arr [.arr [.arr [.num 1, .num 2], .arr [.num 3, .num 4]]])]),
    ("country_code", .str "US"), ("full_name", .str "Austin, TX")]),
  ("in_reply_to_user_id", .num 77),
  ("text", .str "hello"),
  ("entities", .obj [
    ("urls", .arr [.obj [("expanded_url", .str "http://a")]]),
    ("user_mentions", .arr [.obj [("id", .num 88), ("screen_name", .str "m"), ("name", .str "mm")]]),
    ("hashtags", .arr [.obj [("text", .str "h")]]),
    ("symbols", .arr [.obj [("text", .str "sym")]])]),
  ("extended_entities", .obj [("media", .arr [.obj [("media_url", .str "http://img"), ("type", .str "photo")]])]),
  ("lang", .str "en"),
  ("source", .str "web")]

/-- An ordinary geo-less record: `geo` and `place` both JSON null, as the
streaming API delivers them for tweets without location data. -/
def tPlaceNull : J := .obj [
  ("id", .num 10),
  ("user", .obj [("id", .num 3), ("url", .null), ("geo_enabled", .bool false)]),
  ("geo", .null), ("place", .null), ("text", .str "x"),
  ("entities", .obj [("urls", .arr []), ("user_mentions", .arr []),
    ("hashtags", .arr []), ("symbols", .arr [])])]

/-- A record whose geometry substructures are all absent/null and whose
author has location sharing enabled — §4.2's rule 3 case. -/
def tGeoEnabled : J :=
  .obj [("geo", .null), ("place", .null), ("user", .obj [("geo_enabled", .bool true)])]

/-- A record whose url entity lacks `expanded_url`, so the tweet_urls loop
raises after the user and tweet rows were already written in the
transaction. -/
def tFailUrls : J := .obj [
  ("id", .num 3),
  ("user", .obj [("id", .num 7), ("url", .null), ("geo_enabled", .bool false)]),
  ("geo", .obj [("coordinates", .arr [.num 5, .num 6])]),
  ("place", .null), ("text", .str "x"),
  ("entities", .obj [("urls", .arr [.obj []]), ("user_mentions", .arr []),
    ("hashtags", .arr []), ("symbols", .arr [])])]

/-- A state holding one hydrated author row (populated location and name). -/
def dbHydrated : Db :=
  { users := [{ id_users := 1, location := .str "Austin", name := .str "Ann" }] }

/-- A later record by author 1 whose `user` object omits the profile fields
(only `id`, `url`, `geo_enabled` present). -/
def tRehydrate : J := .obj [
  ("id", .num 2),
  ("user", .obj [("id", .num 1), ("url", .null), ("geo_enabled", .bool false)]),
  ("geo", .obj [("coordinates", .arr [.num 1, .num 2])]),
  ("place", .null), ("text", .str "hi"),
  ("entities", .obj [("urls", .arr []), ("user_mentions", .arr []),
    ("hashtags", .arr []), ("symbols", .arr [])])]

/-- `x >>= f` in the `Except` monad succeeds exactly when both parts do. -/
theorem bindOk {α β : Type} {x : Except Err α} {f : α → Except Err β} {b : β} :
    x >>= f = .ok b ↔ ∃ a, x = .ok a ∧ f a = .ok b := by
  cases x <;> simp [Bind.bind, Except.bind]

/-- A successful raising subscript implies the same result for `.get` with
any default. -/
theorem Jget_of_Jsub {t : J} {k : String} {v : J} (h : Jsub t k = .ok v) (d : J) :
    Jget t k d = .ok v := by
  cases t <;> simp only [Jsub] at h <;> try exact absurd h (by simp)
  simp only [Jget]
  cases hl : lookupKey _ k <;> rw [hl] at h
  · exact absurd h (by simp)
  · simp only [Except.ok.injEq] at h
    simp [h, Option.getD]

/-- C9: `remove_nulls` maps `None` to `None`; on a string it returns a
subsequence of the input containing no occurrence of the null character,
in which every other character keeps its exact number of occurrences —
every `\x00` is removed and nothing else is changed, added or removed. -/
theorem remove_nulls_exact :
    remove_nulls none = none ∧
    ∀ s : String, ∃ u, remove_nulls (some s) = some u ∧
      u.data.Sublist s.data ∧
      u.data.count nullChar = 0 ∧
      ∀ c : Char, c ≠ nullChar → u.data.count c = s.data.count c := by
  refine ⟨rfl, fun s => ⟨removeNullChars s, rfl, ?_, ?_, ?_⟩⟩
  · exact List.filter_sublist s.data
  · rw [List.count_eq_zero]
    intro hmem
    have := (List.mem_filter.mp hmem).2
    simp at this
  · intro c hc
    exact List.count_filter (by simpa using hc)

/-- Witness for C9 at a concrete string: `"a\x00b"` loses its null character
while the counts of `'a'` survive. -/
theorem remove_nulls_exact_witness :
    ∃ u, remove_nulls (some (String.mk ['a', '\x00', 'b'])) = some u ∧
      u.data.Sublist ['a', '\x00', 'b'] ∧
      u.data.count nullChar = 0 ∧
      u.data.count 'a' = (['a', '\x00', 'b'] : List Char).count 'a' := by
  obtain ⟨u, h1, h2, h3, h4⟩ := remove_nulls_exact.2 (String.mk ['a', '\x00', 'b'])
  exact ⟨u, h1, h2, h3, h4 'a' (by decide)⟩

/-- C10: sanitization is idempotent — since the output never contains the
null character, a second pass is the identity. -/
theorem remove_nulls_idempotent (s : Option String) :
    remove_nulls (remove_nulls s) = remove_nulls s := by
  cases s with
  | none => rfl
  | some s =>
    simp only [remove_nulls, Option.some.injEq, removeNullChars]
    congr 1
    exact List.filter_eq_self.mpr (fun c hc => (List.mem_filter.mp hc).2)

/-- C5 counterexample: under connection replies where the insert and the
first lookup are both empty but one further lookup would succeed
(`[none, none, some 5]`), `get_id_urls` surfaces the error immediately
(line 72's `res[0]` on `None`), while the spec's retry-once resolver
(`resolveLinkSpec`, modelled from §4.3's words) returns identity 5:
the claimed retry does not exist in the code. -/
theorem get_id_urls_retry_counterexample :
    getIdUrlsResponses [none, none, some 5] = .error .typeError ∧
    resolveLinkSpec [none, none, some 5] = .ok 5 := ⟨rfl, rfl⟩

/-- C5 amended: `get_id_urls` issues exactly the insert and one follow-up
lookup — its result never depends on what any further statement would
return — it yields a valid identity exactly when one of the two replies
carries a row, and it fails precisely when the insert and the single
lookup both come back empty, with no retry before the error surfaces. -/
theorem get_id_urls_no_retry (r1 r2 : Option Nat) (rest rest2 : List (Option Nat)) :
    getIdUrlsResponses (r1 :: r2 :: rest) = getIdUrlsResponses (r1 :: r2 :: rest2) ∧
    (∀ i, getIdUrlsResponses (r1 :: r2 :: rest) = .ok i ↔
      (r1 = some i ∨ (r1 = none ∧ r2 = some i))) ∧
    (getIdUrlsResponses (r1 :: r2 :: rest) = .error .typeError ↔
      (r1 = none ∧ r2 = none)) := by
  refine ⟨?_, ?_, ?_⟩ <;>
    cases r1 <;> cases r2 <;> simp [getIdUrlsResponses]

/-- C2: all writes for one record happen on the one connection inside
`with connection.begin()`; when any statement of the body raises, the
transaction rolls back and the final state is exactly the state before the
record was attempted, whatever the connection had already written
(`uncommitted`) — no users/tweets/url row from the earlier steps of the
same record remains. -/
theorem insert_tweet_rollback (t : J) (db uncommitted : Db) (e : Err)
    (h : insertTweetRun t db = .err e uncommitted) :
    load_record t db = (.failed e, db) := by
  simp [load_record, h]

/-- Witness for C2: `tFailUrls` raises `KeyError` in the tweet_urls loop
after its transaction had already written one users row and one tweets
row; the committed state is exactly the initial (empty) one. -/
theorem insert_tweet_rollback_witness :
    load_record tFailUrls emptyDb = (.failed .keyError, emptyDb) ∧
    (insertTweetRun tFailUrls emptyDb).stateOf.users.length = 1 ∧
    (insertTweetRun tFailUrls emptyDb).stateOf.tweets.length = 1 :=
  ⟨insert_tweet_rollback tFailUrls emptyDb
      ((insertTweetRun tFailUrls emptyDb).stateOf) .keyError rfl, rfl, rfl⟩

/-- C8 (code bug): on the ordinary geo-less record `tPlaceNull`
(`geo: null`, `place: null`) the irregularity is *not* absorbed: the point
rule's `TypeError` is caught, but the polygon rule then subscripts the
null `place` and its own `TypeError` passes the `except KeyError` handler
(lines 194–208), so normalization raises out of `insert_tweet` and the
record fails instead of proceeding with unset geometry. -/
theorem place_null_raises_out :
    load_record tPlaceNull emptyDb = (.failed .typeError, emptyDb) ∧
    pointGeo tPlaceNull = .error .typeError ∧
    polyGeo tPlaceNull = .error .typeError ∧
    extractGeo tPlaceNull = .error .typeError :=
  ⟨rfl, rfl, rfl, rfl⟩

/-- C4 counterexample: `dbHydrated` holds author 1 hydrated
(`location = 'Austin'`, `name = 'Ann'`); loading `tRehydrate` — a later
record by the same author whose `user` object omits those fields — takes
the update path of lines 139–182, which rewrites *every* column to the
latest observation: the populated `location` and `name` become NULL.
A later load touching the same author identity does overwrite populated
fields with null values. -/
theorem hydration_overwrite_counterexample :
    (dbHydrated.users.map fun u => (u.id_users, u.location, u.name)) =
      [(1, J.str "Austin", J.str "Ann")] ∧
    ∃ db2, load_record tRehydrate dbHydrated = (.inserted, db2) ∧
      (db2.users.map fun u => (u.id_users, u.location, u.name)) =
        [(1, J.null, J.null)] :=
  ⟨rfl, (load_record tRehydrate dbHydrated).2, rfl, rfl⟩

/-- C7 counterexample: `tGeoEnabled` carries no coordinate pair and no
bounding region, and its author has location sharing enabled, so the
claimed priority order requires the explicit Unknown value (`geo = None`);
instead the polygon rule subscripts the null `place`, its `TypeError`
passes the `except KeyError` handler, and normalization raises. -/
theorem geo_priority_counterexample :
    extractGeo tGeoEnabled = .error .typeError ∧
    ¬ extractGeo tGeoEnabled = .ok J.null := by
  refine ⟨rfl, fun h => ?_⟩
  rw [show extractGeo tGeoEnabled = .error .typeError from rfl] at h
  exact Except.noConfusion h

/-- `n` successive sequential calls of `get_id_urls` for the same url
string on one connection: the list of results and the final state. -/
def getIdUrlsCalls (s : String) : Nat → Db → List (Except Err Nat) × Db
  | 0, db => ([], db)
  | n + 1, db =>
    match get_id_urls (.str s) db with
    | .ok (i, db1) =>
      let r := getIdUrlsCalls s n db1
      (.ok i :: r.1, r.2)
    | .error e => ([.error e], db)

theorem find?_append_none {α : Type} {p : α → Bool} {l l2 : List α}
    (h : l.find? p = none) : (l ++ l2).find? p = l2.find? p := by
  induction l with
  | nil => simp
  | cons a l ih =>
    cases hp : p a
    · rw [List.find?_cons_of_neg _ (by simp [hp])] at h
      rw [List.cons_append, List.find?_cons_of_neg _ (by simp [hp])]
      exact ih h
    · rw [List.find?_cons_of_pos _ hp] at h
      exact absurd h (by simp)

/-- When a row for the url already exists, the insert conflicts away and the
follow-up select returns the existing row; the state is unchanged. -/
theorem get_id_urls_present {s : String} {db : Db} {r : Nat × String}
    (h : db.urls.find? (fun x => x.2 = s) = some r) :
    get_id_urls (.str s) db = .ok (r.1, db) := by
  have hmem := List.mem_of_find?_eq_some h
  have hr := List.find?_some h
  have hany : db.urls.any (fun x => decide (x.2 = s)) = true :=
    List.any_eq_true.mpr ⟨r, hmem, hr⟩
  simp only [get_id_urls, insertUrlReturning, hany, if_true, selectUrlId, h]
  rfl

/-- The state after `get_id_urls` inserts a fresh row for `s`. -/
def dbInsertUrl (s : String) (db : Db) : Db :=
  { db with urls := db.urls ++ [(db.nextUrlId, s)], nextUrlId := db.nextUrlId + 1 }

/-- When no row for the url exists, the insert creates one carrying the next
serial id and returns it. -/
theorem get_id_urls_absent {s : String} {db : Db}
    (h : db.urls.find? (fun x => x.2 = s) = none) :
    get_id_urls (.str s) db = .ok (db.nextUrlId, dbInsertUrl s db) := by
  have hany : db.urls.any (fun x => decide (x.2 = s)) = false := by
    rw [List.any_eq_false]
    intro x hx
    simpa using List.find?_eq_none.mp h x hx
  simp only [get_id_urls, insertUrlReturning, hany, Bool.false_eq_true, if_false, dbInsertUrl]

/-- A state on which `get_id_urls` is a no-op keeps yielding the same id. -/
theorem getIdUrlsCalls_stable {s : String} {i : Nat} {db : Db}
    (h : get_id_urls (.str s) db = .ok (i, db)) (n : Nat) :
    getIdUrlsCalls s n db = (List.replicate n (.ok i), db) := by
  induction n with
  | zero => simp [getIdUrlsCalls]
  | succ n ih => simp [getIdUrlsCalls, h, ih, List.replicate]

/-- C6: calling `get_id_urls` any number of times sequentially with the same
url string creates at most one `urls` row for it (its state after any run
holds at most one matching row, and grows by at most one row in total) and
returns the very same identity on every call.  The hypothesis is the
table's unique constraint on `urls.url`, which `on conflict do nothing`
presupposes. -/
theorem get_id_urls_dedup (s : String) (db : Db) (n : Nat)
    (h : (db.urls.map (fun r => r.2)).Nodup) :
    ∃ i, (getIdUrlsCalls s n db).1 = List.replicate n (Except.ok i) ∧
      ((getIdUrlsCalls s n db).2.urls.map (fun r => r.2)).count s ≤ 1 ∧
      (getIdUrlsCalls s n db).2.urls.length ≤ db.urls.length + 1 := by
  cases hf : db.urls.find? (fun x => x.2 = s) with
  | some r =>
    refine ⟨r.1, ?_⟩
    rw [getIdUrlsCalls_stable (get_id_urls_present hf) n]
    exact ⟨rfl, List.nodup_iff_count_le_one.mp h s, Nat.le_succ _⟩
  | none =>
    have hnotin : s ∉ db.urls.map (fun r => r.2) := by
      intro hs
      obtain ⟨x, hx, hxs⟩ := List.mem_map.mp hs
      simpa [hxs] using List.find?_eq_none.mp hf x hx
    cases n with
    | zero =>
      exact ⟨0, rfl, by
        simp only [getIdUrlsCalls]
        exact ⟨le_trans (le_of_eq (List.count_eq_zero.mpr hnotin)) (by omega), Nat.le_succ _⟩⟩
    | succ n =>
      have habs := get_id_urls_absent hf
      have hf2 : (dbInsertUrl s db).urls.find? (fun x => x.2 = s) =
          some (db.nextUrlId, s) := by
        show (db.urls ++ [(db.nextUrlId, s)]).find? (fun x => x.2 = s) = _
        rw [find?_append_none hf]
        simp
      have hstable := getIdUrlsCalls_stable (get_id_urls_present hf2) n
      refine ⟨db.nextUrlId, ?_, ?_, ?_⟩ <;>
        simp only [getIdUrlsCalls, habs, hstable] <;>
        simp [List.replicate, dbInsertUrl, List.count_eq_zero.mpr hnotin]

/-- Witness for C6: three calls for one url on the empty state return the
same identity three times and leave a single row. -/
theorem get_id_urls_dedup_witness :
    ∃ i, (getIdUrlsCalls "http://x" 3 emptyDb).1 = List.replicate 3 (Except.ok i) ∧
      ((getIdUrlsCalls "http://x" 3 emptyDb).2.urls.map (fun r => r.2)).count "http://x" ≤ 1 ∧
      (getIdUrlsCalls "http://x" 3 emptyDb).2.urls.length ≤ emptyDb.urls.length + 1 :=
  get_id_urls_dedup "http://x" emptyDb 3 (by simp [emptyDb])

/-- The reply-target stub step never modifies an existing users row: every
row of the incoming state is still present, unchanged, afterwards. -/
theorem replyStubStep_preserves_rows {t : J} {db db2 : Db}
    (h : replyStubStep t db = .ok db2) :
    ∀ u ∈ db.users, u ∈ db2.users := by
  intro u hu
  rw [replyStubStep, bindOk] at h
  obtain ⟨r, _, h⟩ := h
  match r with
  | .null => simp only [Except.ok.injEq] at h; rw [← h]; exact hu
  | .num n =>
    simp only at h
    by_cases hc : db.hasUser n = true
    · rw [if_pos hc] at h
      simp only [Except.ok.injEq] at h; rw [← h]; exact hu
    · rw [if_neg hc] at h
      simp only [Except.ok.injEq] at h; rw [← h]
      exact List.mem_append_left _ hu
  | .bool b => exact absurd h (by simp)
  | .str s => exact absurd h (by simp)
  | .arr l => exact absurd h (by simp)
  | .obj l => exact absurd h (by simp)

/-- One mention stub insert never modifies an existing users row. -/
theorem mentionStubInsert_preserves_rows {mid : Int} {sn nm : J} {db : Db} :
    ∀ u ∈ db.users, u ∈ (mentionStubInsert mid sn nm db).users := by
  intro u hu
  rw [mentionStubInsert]
  by_cases hc : db.hasUser mid = true
  · rw [if_pos hc]; exact hu
  · rw [if_neg hc]; exact List.mem_append_left _ hu

/-- Projection facts: each association insert only touches its own table. -/
theorem insertTweetUrl_proj (a : Int) (b : Nat) (db : Db) :
    (insertTweetUrl a b db).users = db.users ∧
    (insertTweetUrl a b db).tweets = db.tweets ∧
    (insertTweetUrl a b db).urls = db.urls ∧
    (insertTweetUrl a b db).tweet_mentions = db.tweet_mentions ∧
    (insertTweetUrl a b db).tweet_tags = db.tweet_tags ∧
    (insertTweetUrl a b db).tweet_media = db.tweet_media := by
  rw [insertTweetUrl]; split <;> exact ⟨rfl, rfl, rfl, rfl, rfl, rfl⟩

theorem insertMention_proj (a b : Int) (db : Db) :
    (insertMention a b db).users = db.users ∧
    (insertMention a b db).tweets = db.tweets ∧
    (insertMention a b db).urls = db.urls ∧
    (insertMention a b db).tweet_urls = db.tweet_urls ∧
    (insertMention a b db).tweet_tags = db.tweet_tags ∧
    (insertMention a b db).tweet_media = db.tweet_media := by
  rw [insertMention]; split <;> exact ⟨rfl, rfl, rfl, rfl, rfl, rfl⟩

theorem insertTag_proj (a : Int) (g : String) (db : Db) :
    (insertTag a g db).users = db.users ∧
    (insertTag a g db).tweets = db.tweets ∧
    (insertTag a g db).urls = db.urls ∧
    (insertTag a g db).tweet_urls = db.tweet_urls ∧
    (insertTag a g db).tweet_mentions = db.tweet_mentions ∧
    (insertTag a g db).tweet_media = db.tweet_media := by
  rw [insertTag]; split <;> exact ⟨rfl, rfl, rfl, rfl, rfl, rfl⟩

theorem insertMedia_proj (a : Int) (b : Nat) (v : J) (db : Db) :
    (insertMedia a b v db).users = db.users ∧
    (insertMedia a b v db).tweets = db.tweets ∧
    (insertMedia a b v db).urls = db.urls ∧
    (insertMedia a b v db).tweet_urls = db.tweet_urls ∧
    (insertMedia a b v db).tweet_mentions = db.tweet_mentions ∧
    (insertMedia a b v db).tweet_tags = db.tweet_tags := by
  rw [insertMedia]; split <;> exact ⟨rfl, rfl, rfl, rfl, rfl, rfl⟩

theorem mentionStubInsert_proj (a : Int) (sn nm : J) (db : Db) :
    (mentionStubInsert a sn nm db).tweets = db.tweets ∧
    (mentionStubInsert a sn nm db).urls = db.urls ∧
    (mentionStubInsert a sn nm db).tweet_urls = db.tweet_urls ∧
    (mentionStubInsert a sn nm db).tweet_mentions = db.tweet_mentions ∧
    (mentionStubInsert a sn nm db).tweet_tags = db.tweet_tags ∧
    (mentionStubInsert a sn nm db).tweet_media = db.tweet_media := by
  rw [mentionStubInsert]; split <;> exact ⟨rfl, rfl, rfl, rfl, rfl, rfl⟩

/-- The mentions loop never modifies an existing users row. -/
theorem mentionsLoop_preserves_rows {idJ : J} {ms : List J} {db db2 : Db}
    (h : mentionsLoop idJ ms db = .ok db2) :
    ∀ u ∈ db.users, u ∈ db2.users := by
  induction ms generalizing db with
  | nil =>
    simp only [mentionsLoop, Except.ok.injEq] at h
    rw [← h]; exact fun u hu => hu
  | cons m rest ih =>
    intro u hu
    rw [mentionsLoop, bindOk] at h
    obtain ⟨midJ, _, h⟩ := h
    rw [bindOk] at h
    obtain ⟨sn, _, h⟩ := h
    rw [bindOk] at h
    obtain ⟨nm, _, h⟩ := h
    split at h <;> try exact Except.noConfusion h
    dsimp only at h
    split at h <;> try exact Except.noConfusion h
    refine ih h u ?_
    rw [(insertMention_proj _ _ _).1]
    exact mentionStubInsert_preserves_rows u hu

/-- C4 amended: the stub-producing inserts — the reply-target stub of lines
242–257 and the mention stubs of lines 334–358 — are insert-or-ignore and
never overwrite an existing author row in any way (each incoming row
survives identically); but the posting-author upsert of lines 139–182 is
not monotonic: a later load touching the same author identity rewrites
every profile column to that record's values, so fields the later record
omits become NULL (see the counterexample). -/
theorem author_stub_inserts_never_overwrite (t : J) (db db2 : Db) (ms : List J) (idJ : J) :
    (replyStubStep t db = .ok db2 → ∀ u ∈ db.users, u ∈ db2.users) ∧
    (mentionsLoop idJ ms db = .ok db2 → ∀ u ∈ db.users, u ∈ db2.users) :=
  ⟨fun h => replyStubStep_preserves_rows h, fun h => mentionsLoop_preserves_rows h⟩

/-- Witness for the amended C4 at concrete inputs: a reply stub for a new
identity and a mention stub both leave the existing hydrated row of
`dbHydrated` in place. -/
theorem author_stub_inserts_never_overwrite_witness :
    ({ id_users := 1, location := .str "Austin", name := .str "Ann" } : UserRow) ∈
      (dbHydrated.users ++ [{ id_users := 9 }]) ∧
    ({ id_users := 1, location := .str "Austin", name := .str "Ann" } : UserRow) ∈
      (dbHydrated.users ++ [{ id_users := 8 }]) := by
  constructor
  · exact (author_stub_inserts_never_overwrite
        (.obj [("in_reply_to_user_id", .num 9)]) dbHydrated
        { dbHydrated with users := dbHydrated.users ++ [{ id_users := 9 }] }
        [] .null).1 rfl _ (by simp [dbHydrated])
  · exact (author_stub_inserts_never_overwrite .null dbHydrated
        { dbHydrated with users := dbHydrated.users ++ [{ id_users := 8 }],
                          tweet_mentions := [(2, 8)] }
        [.obj [("id", .num 8)]] (.num 2)).2 rfl _ (by simp [dbHydrated])

/-- One coordinate pair rendered as well-known text. -/
def coordWkt (p : Int × Int) : String := toString p.1 ++ " " ++ toString p.2

/-- Comma-separated coordinates. -/
def wktSep : List (Int × Int) → String
  | [] => ""
  | [p] => coordWkt p
  | p :: q :: rest => coordWkt p ++ "," ++ wktSep (q :: rest)

/-- A ring in closed well-known-text form: the vertex list with its first
vertex repeated as the last. -/
def ringWkt (pts : List (Int × Int)) : String :=
  "(" ++ wktSep (pts ++ [pts.headD (0, 0)]) ++ ")"

/-- Comma-separated closed rings. -/
def ringsWkt : List (List (Int × Int)) → String
  | [] => ""
  | [r] => ringWkt r
  | r :: q :: rest => ringWkt r ++ "," ++ ringsWkt (q :: rest)

/-- A coordinate pair as decoded JSON. -/
def ptJ (p : Int × Int) : J := .arr [.num p.1, .num p.2]

/-- A ring (vertex list) as decoded JSON. -/
def polyJ (pts : List (Int × Int)) : J := .arr (pts.map ptJ)

/-- Concatenation of a list of strings. -/
def joinStrs : List String → String
  | [] => ""
  | x :: rest => x ++ joinStrs rest

/-- The inner point loop on a list of coordinate pairs emits each pair with
a trailing comma. -/
theorem ptsStr_map (pts : List (Int × Int)) :
    ptsStr (pts.map ptJ) = .ok (joinStrs (pts.map (fun p => coordWkt p ++ ","))) := by
  induction pts with
  | nil => rfl
  | cons p rest ih =>
    simp only [List.map_cons, ptsStr, ptJ, Jindex, bindOk]
    refine ⟨.num p.1, by simp, ?_⟩
    refine ⟨.num p.2, by simp, ?_⟩
    refine ⟨_, ih, ?_⟩
    simp only [Except.ok.injEq, joinStrs]
    simp only [pyStr, coordWkt, String.append_assoc]
    rfl

/-- Joining pair-with-comma strings and then the closing vertex is exactly
the comma-separated closed ring. -/
theorem join_close_eq_wktSep (l : List (Int × Int)) (q : Int × Int) :
    joinStrs (l.map (fun p => coordWkt p ++ ",")) ++ coordWkt q =
      wktSep (l ++ [q]) := by
  induction l with
  | nil => simp [joinStrs, wktSep]
  | cons p rest ih =>
    cases rest with
    | nil => simp [joinStrs, wktSep, String.append_assoc]
    | cons r rest2 =>
      simp only [List.cons_append] at ih
      simp only [List.map_cons, joinStrs, List.cons_append, wktSep, List.append_eq]
      rw [← ih]
      simp only [List.map_cons, joinStrs]
      simp [String.append_assoc]

/-- The code's ring string for a JSON ring with at least one vertex is the
closed well-known-text ring: the vertices in order with the first vertex
repeated as the last. -/
theorem ringStrE_closed (pts : List (Int × Int)) (hne : pts ≠ []) :
    ringStrE (polyJ pts) = .ok (ringWkt pts) := by
  match pts, hne with
  | p :: rest, _ =>
    simp only [ringStrE, polyJ, bindOk]
    refine ⟨(p :: rest).map ptJ, by simp [Jiter], ?_⟩
    refine ⟨_, ptsStr_map (p :: rest), ?_⟩
    refine ⟨ptJ p, by simp [Jindex], ?_⟩
    refine ⟨.num p.1, by simp [ptJ, Jindex], ?_⟩
    refine ⟨.num p.2, by simp [ptJ, Jindex], ?_⟩
    simp only [Except.ok.injEq, ringWkt, List.headD_cons]
    rw [← join_close_eq_wktSep (p :: rest) p]
    simp only [List.map_cons, joinStrs]
    simp only [pyStr, coordWkt, String.append_assoc]
    rfl

/-- The outer loop on JSON rings emits the comma-separated closed rings. -/
theorem polysStr_closed (polys : List (List (Int × Int)))
    (hne : ∀ pts ∈ polys, pts ≠ []) :
    polysStr (polys.map polyJ) = .ok (ringsWkt polys) := by
  induction polys with
  | nil => rfl
  | cons r rest ih =>
    cases rest with
    | nil =>
      simp only [List.map_nil, List.map_cons, polysStr, ringsWkt]
      exact ringStrE_closed r (hne r (by simp))
    | cons r2 rest2 =>
      simp only [List.map_cons, polysStr, bindOk, ringsWkt]
      refine ⟨_, ringStrE_closed r (hne r (by simp)), ?_⟩
      refine ⟨_, ih (fun pts hp => hne pts (List.mem_cons_of_mem _ hp)), rfl⟩

/-- A record carrying both an explicit coordinate pair and a bounding
region. -/
def tPoint : J := .obj [
  ("geo", .obj [("coordinates", .arr [.num 9, .num 8])]),
  ("place", .obj [("bounding_box", .obj [("coordinates",
      .arr [.arr [.arr [.num 1, .num 1]]])])]),
  ("user", .obj [("geo_enabled", .bool true)])]

/-- No coordinate pair, no bounding region (the `place` object lacks one, a
`KeyError` the chain catches), location sharing enabled. -/
def tUnknownGeo : J := .obj [("geo", .null),
  ("place", .obj [("country_code", .str "fr")]),
  ("user", .obj [("geo_enabled", .bool true)])]

/-- Same, with location sharing disabled. -/
def tUnsetGeo : J := .obj [("geo", .null),
  ("place", .obj [("country_code", .str "fr")]),
  ("user", .obj [("geo_enabled", .bool false)])]

/-- C7 amended: the geometry priority order holds for every record on which
each failing rule raises exactly the exception class the next handler
catches (the counterexample forces this caveat: a rule failing any other
way — e.g. a null `place` raising `TypeError` under the region rule —
aborts the record instead of falling through).
Rule 1: a record with an explicit coordinate pair emits `POINT(x y)`, with
no condition at all on `place` — a present bounding region is ignored.
Rule 2: else (point rule failed with the caught `TypeError`), a record
whose bounding region decodes to a list of nonempty rings emits `POLYGON`
with every ring closed by repeating its first vertex as its last.
Rule 3: else (region rule failed with the caught `KeyError`), a record
whose author has location sharing enabled emits the explicit unknown value
(SQL NULL), and otherwise geometry is left unset (the initial `''`). -/
theorem geo_priority_rules (t : J) :
    (∀ (gv c0 c1 : J) (rest : List J),
      Jsub t "geo" = .ok gv →
      Jsub gv "coordinates" = .ok (.arr (c0 :: c1 :: rest)) →
      extractGeo t = .ok (.str ("POINT(" ++ pyStr c0 ++ " " ++ pyStr c1 ++ ")"))) ∧
    (∀ (pl bb : J) (polys : List (List (Int × Int))),
      pointGeo t = .error .typeError →
      Jsub t "place" = .ok pl →
      Jsub pl "bounding_box" = .ok bb →
      Jsub bb "coordinates" = .ok (.arr (polys.map polyJ)) →
      (∀ pts ∈ polys, pts ≠ []) →
      extractGeo t = .ok (.str ("POLYGON(" ++ ringsWkt polys ++ ")"))) ∧
    (∀ (user ge : J),
      pointGeo t = .error .typeError →
      polyGeo t = .error .keyError →
      Jsub t "user" = .ok user →
      Jsub user "geo_enabled" = .ok ge →
      (truthy ge = true → extractGeo t = .ok .null) ∧
      (truthy ge = false → extractGeo t = .ok (.str ""))) := by
  refine ⟨?_, ?_, ?_⟩
  · intro gv c0 c1 rest h1 h2
    have hp : pointGeo t = .ok (.str ("POINT(" ++ pyStr c0 ++ " " ++ pyStr c1 ++ ")")) := by
      simp only [pointGeo, bindOk]
      exact ⟨gv, h1, _, h2, c0, by simp [Jindex], c1, by simp [Jindex], rfl⟩
    simp [extractGeo, hp]
  · intro pl bb polys hp h1 h2 h3 hne
    have hpoly : polyGeo t = .ok (.str ("POLYGON(" ++ ringsWkt polys ++ ")")) := by
      simp only [polyGeo, bindOk]
      refine ⟨pl, h1, bb, h2, .arr (polys.map polyJ), h3, ?_⟩
      refine ⟨polys.map polyJ, by simp [Jiter], ?_⟩
      refine ⟨_, polysStr_closed polys hne, rfl⟩
    simp [extractGeo, hp, hpoly]
  · intro user ge hp hpoly h1 h2
    constructor <;> intro hge <;> simp [extractGeo, hp, hpoly, h1, h2, hge]

/-- Witness for the amended C7, applying each rule at a concrete record:
`tPoint` (point and bounding region both present) emits the point;
`tOk` (bounding region only) emits the closed polygon; `tUnknownGeo` /
`tUnsetGeo` (neither) emit NULL / the unset `''` by location sharing. -/
theorem geo_priority_rules_witness :
    extractGeo tPoint = .ok (.str "POINT(9 8)") ∧
    extractGeo tOk = .ok (.str "POLYGON((1 2,3 4,1 2))") ∧
    extractGeo tUnknownGeo = .ok .null ∧
    extractGeo tUnsetGeo = .ok (.str "") := by
  refine ⟨?_, ?_, ?_, ?_⟩
  · exact (geo_priority_rules tPoint).1
      (.obj [("coordinates", .arr [.num 9, .num 8])]) (.num 9) (.num 8) [] rfl rfl
  · exact (geo_priority_rules tOk).2.1
      (.obj [("bounding_box", .obj [("coordinates",
          .arr [.arr [.arr [.num 1, .num 2], .arr [.num 3, .num 4]]])]),
        ("country_code", .str "US"), ("full_name", .str "Austin, TX")])
      (.obj [("coordinates", .arr [.arr [.arr [.num 1, .num 2], .arr [.num 3, .num 4]]])])
      [[(1, 2), (3, 4)]] rfl rfl rfl rfl (by simp)
  · exact ((geo_priority_rules tUnknownGeo).2.2
      (.obj [("geo_enabled", .bool true)]) (.bool true) rfl rfl rfl rfl).1 rfl
  · exact ((geo_priority_rules tUnsetGeo).2.2
      (.obj [("geo_enabled", .bool false)]) (.bool false) rfl rfl rfl rfl).2 rfl

theorem hasUser_congr {a b : Db} (h : b.users = a.users) (k : Int) :
    b.hasUser k = a.hasUser k := by
  rw [Db.hasUser, Db.hasUser, h]

theorem hasTweet_congr {a b : Db} (h : b.tweets = a.tweets) (k : Int) :
    b.hasTweet k = a.hasTweet k := by
  rw [Db.hasTweet, Db.hasTweet, h]

theorem hasUrl_congr {a b : Db} (h : b.urls = a.urls) (k : Nat) :
    b.hasUrl k = a.hasUrl k := by
  rw [Db.hasUrl, Db.hasUrl, h]

/-- What a successful sequential `get_id_urls` guarantees: no table but
`urls` changes, the returned identity resolves in the resulting state, and
existing url rows survive. -/
theorem get_id_urls_facts {u : J} {db : Db} {i : Nat} {db2 : Db}
    (h : get_id_urls u db = .ok (i, db2)) :
    db2.users = db.users ∧ db2.tweets = db.tweets ∧
    db2.tweet_urls = db.tweet_urls ∧ db2.tweet_mentions = db.tweet_mentions ∧
    db2.tweet_tags = db.tweet_tags ∧ db2.tweet_media = db.tweet_media ∧
    db2.hasUrl i = true ∧ (∀ k, db.hasUrl k = true → db2.hasUrl k = true) := by
  match u with
  | .null => exact absurd h (by simp [get_id_urls])
  | .bool b => exact absurd h (by simp [get_id_urls])
  | .num n => exact absurd h (by simp [get_id_urls])
  | .arr l => exact absurd h (by simp [get_id_urls])
  | .obj l => exact absurd h (by simp [get_id_urls])
  | .str s =>
    cases hf : db.urls.find? (fun x => x.2 = s) with
    | some r =>
      rw [get_id_urls_present hf] at h
      simp only [Except.ok.injEq, Prod.mk.injEq] at h
      obtain ⟨hi, hdb⟩ := h
      subst hi; subst hdb
      refine ⟨rfl, rfl, rfl, rfl, rfl, rfl, ?_, fun k hk => hk⟩
      exact List.any_eq_true.mpr ⟨r, List.mem_of_find?_eq_some hf, by simp⟩
    | none =>
      rw [get_id_urls_absent hf] at h
      simp only [Except.ok.injEq, Prod.mk.injEq] at h
      obtain ⟨hi, hdb⟩ := h
      subst hi; subst hdb
      refine ⟨rfl, rfl, rfl, rfl, rfl, rfl, ?_, ?_⟩
      · simp [dbInsertUrl, Db.hasUrl]
      · intro k hk
        rw [Db.hasUrl] at hk ⊢
        simp only [dbInsertUrl, List.any_append, hk, Bool.true_or]

/-- What a successful user-url resolution guarantees. -/
theorem userUrlStep_facts {t : J} {db : Db} {o : Option Nat} {db2 : Db}
    (h : userUrlStep t db = .ok (o, db2)) :
    db2.users = db.users ∧ db2.tweets = db.tweets ∧
    db2.tweet_urls = db.tweet_urls ∧ db2.tweet_mentions = db.tweet_mentions ∧
    db2.tweet_tags = db.tweet_tags ∧ db2.tweet_media = db.tweet_media ∧
    (∀ i, o = some i → db2.hasUrl i = true) ∧
    (∀ k, db.hasUrl k = true → db2.hasUrl k = true) := by
  rw [userUrlStep] at h
  split at h <;> try exact Except.noConfusion h
  split at h <;> try exact Except.noConfusion h
  · simp only [Except.ok.injEq, Prod.mk.injEq] at h
    obtain ⟨ho, hdb⟩ := h
    subst hdb
    exact ⟨rfl, rfl, rfl, rfl, rfl, rfl,
      fun i hi => absurd (ho ▸ hi) (by simp), fun k hk => hk⟩
  · split at h <;> try exact Except.noConfusion h
    simp only [Except.ok.injEq, Prod.mk.injEq] at h
    obtain ⟨ho, hdb⟩ := h
    subst hdb
    rename_i v _ i2 db3 hget
    obtain ⟨h1, h2, h3, h4, h5, h6, h7, h8⟩ := get_id_urls_facts hget
    exact ⟨h1, h2, h3, h4, h5, h6, fun i hi => by
      rw [← ho] at hi
      simp only [Option.some.injEq] at hi
      rw [← hi]; exact h7, h8⟩

theorem any_map_preserving_id {l : List UserRow} {f : UserRow → UserRow}
    (hf : ∀ u, (f u).id_users = u.id_users) (k : Int) :
    (l.map f).any (fun u => u.id_users = k) = l.any (fun u => u.id_users = k) := by
  induction l with
  | nil => rfl
  | cons a l ih => simp [hf, ih]

/-- What a successful posting-user upsert guarantees: only `users` changes,
existing identities survive (the update path rewrites the row in place
keeping its key), the extracted `user['id']` is an integer whose row
exists afterwards, and every row is an original row or carries the freshly
resolved `id_urls`. -/
theorem insertUserStep_facts {t : J} {uu : Option Nat} {db : Db} {db2 : Db}
    (h : insertUserStep t uu db = .ok db2) :
    db2.urls = db.urls ∧ db2.tweets = db.tweets ∧
    db2.tweet_urls = db.tweet_urls ∧ db2.tweet_mentions = db.tweet_mentions ∧
    db2.tweet_tags = db.tweet_tags ∧ db2.tweet_media = db.tweet_media ∧
    (∀ k, db.hasUser k = true → db2.hasUser k = true) ∧
    (∃ n, (Jget t "user" (.obj []) >>= fun u => Jsub u "id") = .ok (.num n) ∧
      db2.hasUser n = true) ∧
    (∀ u2 ∈ db2.users, u2 ∈ db.users ∨ u2.id_urls = uu) := by
  simp only [insertUserStep, bindOk] at h
  obtain ⟨user, huser, h⟩ := h
  obtain ⟨uidJ, huid, h⟩ := h
  obtain ⟨found, hfound, h⟩ := h
  obtain ⟨ca, hca, h⟩ := h
  obtain ⟨ua, hua, h⟩ := h
  obtain ⟨fr, hfr, h⟩ := h
  obtain ⟨li, hli, h⟩ := h
  obtain ⟨fa, hfa, h⟩ := h
  obtain ⟨st, hst, h⟩ := h
  obtain ⟨pr, hpr, h⟩ := h
  obtain ⟨ve, hve, h⟩ := h
  obtain ⟨sn, hsn, h⟩ := h
  obtain ⟨nm, hnm, h⟩ := h
  obtain ⟨lo, hlo, h⟩ := h
  obtain ⟨de, hde, h⟩ := h
  obtain ⟨wi, hwi, h⟩ := h
  cases found with
  | true =>
    rw [if_pos rfl] at h
    split at h
    · -- update path: every column of the existing row is rewritten in place
      rename_i n
      have hn : db.hasUser n = true := by
        simp only [checkUserExists, Except.ok.injEq] at hfound
        exact hfound
      simp only [Except.ok.injEq] at h
      subst h
      have hids : ∀ u : UserRow,
          ((fun r => if r.id_users = n then
            mkUserRow n uu ca ua fr li fa st pr ve sn nm lo de wi else r) u).id_users
            = u.id_users := by
        intro u
        show (if u.id_users = n then
          mkUserRow n uu ca ua fr li fa st pr ve sn nm lo de wi else u).id_users = u.id_users
        by_cases hc : u.id_users = n
        · rw [if_pos hc, hc]; rfl
        · rw [if_neg hc]
      refine ⟨rfl, rfl, rfl, rfl, rfl, rfl, ?_, ?_, ?_⟩
      · intro k hk
        rw [Db.hasUser] at hk ⊢
        rw [any_map_preserving_id hids k]
        exact hk
      · refine ⟨n, bindOk.mpr ⟨user, huser, huid⟩, ?_⟩
        rw [Db.hasUser]
        rw [any_map_preserving_id hids n]
        exact hn
      · intro u2 hu2
        obtain ⟨u, hu, hfu⟩ := List.mem_map.mp hu2
        by_cases hc : u.id_users = n
        · rw [← hfu]
          simp only [if_pos hc]
          right; rfl
        · rw [← hfu]
          simp only [if_neg hc]
          left; exact hu
    · -- the catch-all `where id_users = ...` case cannot have found a row
      rename_i hne
      exfalso
      match uidJ, hfound, hne with
      | .num n, _, hne => exact hne n rfl
      | .null, hf, _ => simp [checkUserExists] at hf
      | .bool b, hf, _ => simp [checkUserExists] at hf
      | .str s2, hf, _ => simp [checkUserExists] at hf
      | .arr l, hf, _ => simp [checkUserExists] at hf
      | .obj l, hf, _ => simp [checkUserExists] at hf
  | false =>
    rw [if_neg (by simp)] at h
    split at h <;> try exact Except.noConfusion h
    rename_i n
    split at h <;> rename_i hc
    · simp only [Except.ok.injEq] at h
      subst h
      exact ⟨rfl, rfl, rfl, rfl, rfl, rfl, fun k hk => hk,
        ⟨n, bindOk.mpr ⟨user, huser, huid⟩, hc⟩,
        fun u2 hu2 => Or.inl hu2⟩
    · simp only [Except.ok.injEq] at h
      subst h
      refine ⟨rfl, rfl, rfl, rfl, rfl, rfl, ?_, ?_, ?_⟩
      · intro k hk
        rw [Db.hasUser] at hk ⊢
        simp only [List.any_append, hk, Bool.true_or]
      · refine ⟨n, bindOk.mpr ⟨user, huser, huid⟩, ?_⟩
        rw [Db.hasUser]
        simp [List.any_append, mkUserRow]
      · intro u2 hu2
        rcases List.mem_append.mp hu2 with hu2 | hu2
        · left; exact hu2
        · right
          simp only [List.mem_singleton] at hu2
          subst hu2
          rfl

/-- What the reply-target stub step guarantees: only `users` can grow (by a
bare-identity stub), existing identities survive, and a present integer
reply target resolves afterwards. -/
theorem replyStubStep_facts {t : J} {db : Db} {db2 : Db}
    (h : replyStubStep t db = .ok db2) :
    db2.urls = db.urls ∧ db2.tweets = db.tweets ∧
    db2.tweet_urls = db.tweet_urls ∧ db2.tweet_mentions = db.tweet_mentions ∧
    db2.tweet_tags = db.tweet_tags ∧ db2.tweet_media = db.tweet_media ∧
    (∀ k, db.hasUser k = true → db2.hasUser k = true) ∧
    (∀ n, Jget t "in_reply_to_user_id" .null = .ok (.num n) → db2.hasUser n = true) ∧
    (∀ u2 ∈ db2.users, u2 ∈ db.users ∨ u2.id_urls = none) := by
  rw [replyStubStep] at h
  simp only [bindOk] at h
  obtain ⟨r, hr, h⟩ := h
  split at h <;> try exact Except.noConfusion h
  · -- no reply target
    simp only [Except.ok.injEq] at h
    subst h
    refine ⟨rfl, rfl, rfl, rfl, rfl, rfl, fun k hk => hk, ?_, fun u2 hu2 => Or.inl hu2⟩
    intro n hn
    rw [hr] at hn
    simp only [Except.ok.injEq] at hn
    exact absurd hn (by simp)
  · -- integer reply target: ensured present
    rename_i n0
    split at h <;> rename_i hc <;> simp only [Except.ok.injEq] at h <;> subst h
    · refine ⟨rfl, rfl, rfl, rfl, rfl, rfl, fun k hk => hk, ?_, fun u2 hu2 => Or.inl hu2⟩
      intro n hn
      rw [hr] at hn
      simp only [Except.ok.injEq, J.num.injEq] at hn
      rw [← hn]
      exact hc
    · refine ⟨rfl, rfl, rfl, rfl, rfl, rfl, ?_, ?_, ?_⟩
      · intro k hk
        rw [Db.hasUser] at hk ⊢
        simp only [List.any_append, hk, Bool.true_or]
      · intro n hn
        rw [hr] at hn
        simp only [Except.ok.injEq, J.num.injEq] at hn
        rw [Db.hasUser]
        simp [List.any_append, hn]
      · intro u2 hu2
        rcases List.mem_append.mp hu2 with hu2 | hu2
        · left; exact hu2
        · right
          simp only [List.mem_singleton] at hu2
          subst hu2
          rfl

/-- What a successful tweet row insert guarantees: only `tweets` can grow,
existing rows survive, the extracted `tweet.get('id')` is an integer whose
row exists afterwards, and any new row's author / reply-target columns
hold exactly the identities re-read from the record. -/
theorem tweetInsertStep_facts {t : J} {f : Fields} {db : Db} {db2 : Db}
    (h : tweetInsertStep t f db = .ok db2) :
    db2.users = db.users ∧ db2.urls = db.urls ∧
    db2.tweet_urls = db.tweet_urls ∧ db2.tweet_mentions = db.tweet_mentions ∧
    db2.tweet_tags = db.tweet_tags ∧ db2.tweet_media = db.tweet_media ∧
    (∀ k, db.hasTweet k = true → db2.hasTweet k = true) ∧
    (∃ n, Jget t "id" .null = .ok (.num n) ∧ db2.hasTweet n = true) ∧
    (∀ tw ∈ db2.tweets, tw ∈ db.tweets ∨
      ((∃ idU, (Jget t "user" (.obj []) >>= fun u => Jget u "id" .null) = .ok (.num idU) ∧
         tw.id_users = idU) ∧
       (tw.in_reply_to_user_id = none ∨
        ∃ rn, Jget t "in_reply_to_user_id" .null = .ok (.num rn) ∧
          tw.in_reply_to_user_id = some rn))) := by
  simp only [tweetInsertStep, bindOk] at h
  obtain ⟨idJ, hidJ, h⟩ := h
  obtain ⟨user, huser, h⟩ := h
  obtain ⟨uidJ, huid, h⟩ := h
  obtain ⟨ca, hca, h⟩ := h
  obtain ⟨rs, hrs, h⟩ := h
  obtain ⟨replyJ, hrepJ, h⟩ := h
  obtain ⟨qu, hqu, h⟩ := h
  obtain ⟨rt, hrt, h⟩ := h
  obtain ⟨fv, hfv, h⟩ := h
  obtain ⟨qc, hqc, h⟩ := h
  obtain ⟨wc, hwc, h⟩ := h
  obtain ⟨wi, hwi, h⟩ := h
  obtain ⟨so, hso, h⟩ := h
  obtain ⟨te, hte, h⟩ := h
  obtain ⟨la, hla, h⟩ := h
  obtain ⟨reply, hrep, h⟩ := h
  split at h <;> try exact Except.noConfusion h
  rename_i idT idU
  have hreply : reply = none ∨
      ∃ rn, Jget t "in_reply_to_user_id" .null = .ok (.num rn) ∧ reply = some rn := by
    match replyJ, hrepJ, hrep with
    | .null, _, hrp =>
      simp only [replyToInt, Except.ok.injEq] at hrp
      exact Or.inl hrp.symm
    | .num rn, hj, hrp =>
      simp only [replyToInt, Except.ok.injEq] at hrp
      exact Or.inr ⟨rn, hj, hrp.symm⟩
    | .bool b, _, hrp => exact absurd hrp (by simp [replyToInt])
    | .str s2, _, hrp => exact absurd hrp (by simp [replyToInt])
    | .arr l, _, hrp => exact absurd hrp (by simp [replyToInt])
    | .obj l, _, hrp => exact absurd hrp (by simp [replyToInt])
  split at h <;> rename_i hc <;> simp only [Except.ok.injEq] at h <;> subst h
  · exact ⟨rfl, rfl, rfl, rfl, rfl, rfl, fun k hk => hk,
      ⟨idT, hidJ, hc⟩, fun tw htw => Or.inl htw⟩
  · refine ⟨rfl, rfl, rfl, rfl, rfl, rfl, ?_, ?_, ?_⟩
    · intro k hk
      rw [Db.hasTweet] at hk ⊢
      simp only [List.any_append, hk, Bool.true_or]
    · refine ⟨idT, hidJ, ?_⟩
      rw [Db.hasTweet]
      simp [List.any_append]
    · intro tw htw
      rcases List.mem_append.mp htw with htw | htw
      · left; exact htw
      · right
        simp only [List.mem_singleton] at htw
        subst htw
        exact ⟨⟨idU, bindOk.mpr ⟨user, huser, huid⟩, rfl⟩, hreply⟩

theorem insertTweetUrl_rows (a : Int) (b : Nat) (db : Db) :
    ∀ p ∈ (insertTweetUrl a b db).tweet_urls, p ∈ db.tweet_urls ∨ p = (a, b) := by
  intro p hp
  rw [insertTweetUrl] at hp
  split at hp
  · left; exact hp
  · rcases List.mem_append.mp hp with hp | hp
    · left; exact hp
    · right; simpa using hp

theorem insertMention_rows (a b : Int) (db : Db) :
    ∀ p ∈ (insertMention a b db).tweet_mentions, p ∈ db.tweet_mentions ∨ p = (a, b) := by
  intro p hp
  rw [insertMention] at hp
  split at hp
  · left; exact hp
  · rcases List.mem_append.mp hp with hp | hp
    · left; exact hp
    · right; simpa using hp

theorem insertTag_rows (a : Int) (g : String) (db : Db) :
    ∀ p ∈ (insertTag a g db).tweet_tags, p ∈ db.tweet_tags ∨ p = (a, g) := by
  intro p hp
  rw [insertTag] at hp
  split at hp
  · left; exact hp
  · rcases List.mem_append.mp hp with hp | hp
    · left; exact hp
    · right; simpa using hp

theorem insertMedia_rows (a : Int) (b : Nat) (v : J) (db : Db) :
    ∀ p ∈ (insertMedia a b v db).tweet_media,
      p ∈ db.tweet_media ∨ (p.1 = a ∧ p.2.1 = b) := by
  intro p hp
  rw [insertMedia] at hp
  split at hp
  · left; exact hp
  · rcases List.mem_append.mp hp with hp | hp
    · left; exact hp
    · right
      simp only [List.mem_singleton] at hp
      subst hp
      exact ⟨rfl, rfl⟩

theorem mentionStubInsert_facts (mid : Int) (sn nm : J) (db : Db) :
    (∀ k, db.hasUser k = true → (mentionStubInsert mid sn nm db).hasUser k = true) ∧
    (mentionStubInsert mid sn nm db).hasUser mid = true ∧
    (∀ u2 ∈ (mentionStubInsert mid sn nm db).users, u2 ∈ db.users ∨ u2.id_urls = none) := by
  rw [mentionStubInsert]
  split
  · rename_i hc
    exact ⟨fun k hk => hk, hc, fun u2 hu2 => Or.inl hu2⟩
  · refine ⟨?_, ?_, ?_⟩
    · intro k hk
      rw [Db.hasUser] at hk ⊢
      simp only [List.any_append, hk, Bool.true_or]
    · rw [Db.hasUser]
      simp [List.any_append]
    · intro u2 hu2
      rcases List.mem_append.mp hu2 with hu2 | hu2
      · left; exact hu2
      · right
        simp only [List.mem_singleton] at hu2
        subst hu2
        rfl

/-- What the tweet_urls loop guarantees: it touches only `urls` (grown
monotonically through `get_id_urls`) and `tweet_urls`, whose new rows all
carry the record's integer id and a resolvable link id. -/
theorem urlsLoop_facts {idJ : J} {us : List J} {db db2 : Db}
    (h : urlsLoop idJ us db = .ok db2) :
    db2.users = db.users ∧ db2.tweets = db.tweets ∧
    db2.tweet_mentions = db.tweet_mentions ∧ db2.tweet_tags = db.tweet_tags ∧
    db2.tweet_media = db.tweet_media ∧
    (∀ k, db.hasUrl k = true → db2.hasUrl k = true) ∧
    (∀ p ∈ db2.tweet_urls, p ∈ db.tweet_urls ∨
      ((∃ n, idJ = .num n ∧ p.1 = n) ∧ db2.hasUrl p.2 = true)) := by
  induction us generalizing db with
  | nil =>
    simp only [urlsLoop, Except.ok.injEq] at h
    subst h
    exact ⟨rfl, rfl, rfl, rfl, rfl, fun k hk => hk, fun p hp => Or.inl hp⟩
  | cons u rest ih =>
    simp only [urlsLoop, bindOk] at h
    obtain ⟨eu, heu, h⟩ := h
    obtain ⟨⟨iu, db1⟩, hget, h⟩ := h
    split at h <;> try exact Except.noConfusion h
    rename_i idT
    obtain ⟨g1, g2, g3, g4, g5, g6, g7, g8⟩ := get_id_urls_facts hget
    obtain ⟨i1, i2, i3, i4, i5, i6⟩ := insertTweetUrl_proj idT iu db1
    obtain ⟨f1, f2, f3, f4, f5, f6, f7⟩ := ih h
    have hmono : ∀ k, db.hasUrl k = true → db2.hasUrl k = true := by
      intro k hk
      exact f6 k ((hasUrl_congr i3 k).symm ▸ g8 k hk)
    refine ⟨by rw [f1, i1, g1], by rw [f2, i2, g2], by rw [f3, i4, g4],
      by rw [f4, i5, g5], by rw [f5, i6, g6], hmono, ?_⟩
    intro p hp
    rcases f7 p hp with hp2 | hp2
    · rcases insertTweetUrl_rows idT iu db1 p hp2 with hp3 | hp3
      · left
        rw [← g3]; exact hp3
      · right
        subst hp3
        refine ⟨⟨idT, rfl, rfl⟩, ?_⟩
        exact f6 iu ((hasUrl_congr i3 iu).symm ▸ g7)
    · right; exact hp2

/-- What the mentions loop guarantees: it touches only `users` (stub rows,
never modifying existing ones) and `tweet_mentions`, whose new rows carry
the record's integer id and an author identity present afterwards. -/
theorem mentionsLoop_facts {idJ : J} {ms : List J} {db db2 : Db}
    (h : mentionsLoop idJ ms db = .ok db2) :
    db2.tweets = db.tweets ∧ db2.urls = db.urls ∧
    db2.tweet_urls = db.tweet_urls ∧ db2.tweet_tags = db.tweet_tags ∧
    db2.tweet_media = db.tweet_media ∧
    (∀ k, db.hasUser k = true → db2.hasUser k = true) ∧
    (∀ u2 ∈ db2.users, u2 ∈ db.users ∨ u2.id_urls = none) ∧
    (∀ p ∈ db2.tweet_mentions, p ∈ db.tweet_mentions ∨
      ((∃ n, idJ = .num n ∧ p.1 = n) ∧ db2.hasUser p.2 = true)) := by
  induction ms generalizing db with
  | nil =>
    simp only [mentionsLoop, Except.ok.injEq] at h
    subst h
    exact ⟨rfl, rfl, rfl, rfl, rfl, fun k hk => hk, fun u2 hu2 => Or.inl hu2,
      fun p hp => Or.inl hp⟩
  | cons m rest ih =>
    rw [mentionsLoop, bindOk] at h
    obtain ⟨midJ, hmid, h⟩ := h
    rw [bindOk] at h
    obtain ⟨sn, hsn, h⟩ := h
    rw [bindOk] at h
    obtain ⟨nm, hnm, h⟩ := h
    split at h <;> try exact Except.noConfusion h
    rename_i mid
    dsimp only at h
    split at h <;> try exact Except.noConfusion h
    rename_i idT
    obtain ⟨s1, s2, s3⟩ := mentionStubInsert_facts mid sn nm db
    obtain ⟨p1, p2, p3, p4, p5, p6⟩ := mentionStubInsert_proj mid sn nm db
    obtain ⟨q1, q2, q3, q4, q5, q6⟩ := insertMention_proj idT mid (mentionStubInsert mid sn nm db)
    obtain ⟨f1, f2, f3, f4, f5, f6, f7, f8⟩ := ih h
    have hmono : ∀ k, db.hasUser k = true → db2.hasUser k = true := by
      intro k hk
      exact f6 k ((hasUser_congr q1 k).symm ▸ s1 k hk)
    refine ⟨by rw [f1, q2, p1], by rw [f2, q3, p2], by rw [f3, q4, p3],
      by rw [f4, q5, p5], by rw [f5, q6, p6], hmono, ?_, ?_⟩
    · intro u2 hu2
      rcases f7 u2 hu2 with h2 | h2
      · rcases s3 u2 (q1 ▸ h2) with h3 | h3
        · left; exact h3
        · right; exact h3
      · right; exact h2
    · intro p hp
      rcases f8 p hp with hp2 | hp2
      · rcases insertMention_rows idT mid (mentionStubInsert mid sn nm db) p hp2 with hp3 | hp3
        · left
          rw [← p4]; exact hp3
        · right
          subst hp3
          refine ⟨⟨idT, rfl, rfl⟩, ?_⟩
          exact f6 mid ((hasUser_congr q1 mid).symm ▸ s2)
      · right; exact hp2

/-- What the tags loop guarantees: only `tweet_tags` changes, and every new
row carries the record's integer id. -/
theorem tagsLoop_facts {idJ : J} {tags : List String} {db db2 : Db}
    (h : tagsLoop idJ tags db = .ok db2) :
    db2.users = db.users ∧ db2.tweets = db.tweets ∧ db2.urls = db.urls ∧
    db2.tweet_urls = db.tweet_urls ∧ db2.tweet_mentions = db.tweet_mentions ∧
    db2.tweet_media = db.tweet_media ∧
    (∀ p ∈ db2.tweet_tags, p ∈ db.tweet_tags ∨ ∃ n, idJ = .num n ∧ p.1 = n) := by
  induction tags generalizing db with
  | nil =>
    simp only [tagsLoop, Except.ok.injEq] at h
    subst h
    exact ⟨rfl, rfl, rfl, rfl, rfl, rfl, fun p hp => Or.inl hp⟩
  | cons tg rest ih =>
    cases idJ <;> simp only [tagsLoop] at h <;> try exact Except.noConfusion h
    rename_i idT
    obtain ⟨i1, i2, i3, i4, i5, i6⟩ := insertTag_proj idT (removeNullChars tg) db
    obtain ⟨f1, f2, f3, f4, f5, f6, f7⟩ := ih h
    refine ⟨by rw [f1, i1], by rw [f2, i2], by rw [f3, i3], by rw [f4, i4],
      by rw [f5, i5], by rw [f6, i6], ?_⟩
    intro p hp
    rcases f7 p hp with hp2 | hp2
    · rcases insertTag_rows idT (removeNullChars tg) db p hp2 with hp3 | hp3
      · left; exact hp3
      · right
        subst hp3
        exact ⟨idT, rfl, rfl⟩
    · right; exact hp2

/-- What the media loop guarantees: it touches only `urls` (grown
monotonically) and `tweet_media`, whose new rows carry the record's
integer id and a resolvable link id. -/
theorem mediaLoop_facts {idJ : J} {med : List J} {db db2 : Db}
    (h : mediaLoop idJ med db = .ok db2) :
    db2.users = db.users ∧ db2.tweets = db.tweets ∧
    db2.tweet_urls = db.tweet_urls ∧ db2.tweet_mentions = db.tweet_mentions ∧
    db2.tweet_tags = db.tweet_tags ∧
    (∀ k, db.hasUrl k = true → db2.hasUrl k = true) ∧
    (∀ p ∈ db2.tweet_media, p ∈ db.tweet_media ∨
      ((∃ n, idJ = .num n ∧ p.1 = n) ∧ db2.hasUrl p.2.1 = true)) := by
  induction med generalizing db with
  | nil =>
    simp only [mediaLoop, Except.ok.injEq] at h
    subst h
    exact ⟨rfl, rfl, rfl, rfl, rfl, fun k hk => hk, fun p hp => Or.inl hp⟩
  | cons m rest ih =>
    simp only [mediaLoop, bindOk] at h
    obtain ⟨mu, hmu, h⟩ := h
    obtain ⟨⟨iu, db1⟩, hget, h⟩ := h
    obtain ⟨ty, hty, h⟩ := h
    split at h <;> try exact Except.noConfusion h
    rename_i idT
    obtain ⟨g1, g2, g3, g4, g5, g6, g7, g8⟩ := get_id_urls_facts hget
    obtain ⟨i1, i2, i3, i4, i5, i6⟩ := insertMedia_proj idT iu ty db1
    obtain ⟨f1, f2, f3, f4, f5, f6, f7⟩ := ih h
    have hmono : ∀ k, db.hasUrl k = true → db2.hasUrl k = true := by
      intro k hk
      exact f6 k ((hasUrl_congr i3 k).symm ▸ g8 k hk)
    refine ⟨by rw [f1, i1, g1], by rw [f2, i2, g2], by rw [f3, i4, g3],
      by rw [f4, i5, g4], by rw [f5, i6, g5], hmono, ?_⟩
    intro p hp
    rcases f7 p hp with hp2 | hp2
    · rcases insertMedia_rows idT iu ty db1 p hp2 with hp3 | hp3
      · left
        rw [← g6]; exact hp3
      · right
        obtain ⟨hpa, hpb⟩ := hp3
        refine ⟨⟨idT, rfl, hpa⟩, ?_⟩
        rw [hpb]
        exact f6 iu ((hasUrl_congr i3 iu).symm ▸ g7)
    · right; exact hp2

/-- Integrity transfer across one write step: if existing identities survive
(`hasUser`/`hasTweet`/`hasUrl` monotone) and every row of the new state is
an original row or one whose foreign keys resolve in the new state, then
referential integrity is preserved. -/
theorem refIntegrity_step {a b : Db}
    (husers : ∀ u ∈ b.users, u ∈ a.users ∨ u.id_urls = none ∨
      ∃ i, u.id_urls = some i ∧ b.hasUrl i = true)
    (huserMono : ∀ k, a.hasUser k = true → b.hasUser k = true)
    (htweets : ∀ tw ∈ b.tweets, tw ∈ a.tweets ∨
      (b.hasUser tw.id_users = true ∧ (tw.in_reply_to_user_id = none ∨
        ∃ rn, tw.in_reply_to_user_id = some rn ∧ b.hasUser rn = true)))
    (htwMono : ∀ k, a.hasTweet k = true → b.hasTweet k = true)
    (hurlMono : ∀ k, a.hasUrl k = true → b.hasUrl k = true)
    (hturls : ∀ p ∈ b.tweet_urls, p ∈ a.tweet_urls ∨
      (b.hasTweet p.1 = true ∧ b.hasUrl p.2 = true))
    (htm : ∀ p ∈ b.tweet_mentions, p ∈ a.tweet_mentions ∨
      (b.hasTweet p.1 = true ∧ b.hasUser p.2 = true))
    (htt : ∀ p ∈ b.tweet_tags, p ∈ a.tweet_tags ∨ b.hasTweet p.1 = true)
    (htmed : ∀ p ∈ b.tweet_media, p ∈ a.tweet_media ∨
      (b.hasTweet p.1 = true ∧ b.hasUrl p.2.1 = true))
    (hint : refIntegrity a) : refIntegrity b := by
  obtain ⟨c1, c2, c3, c4, c5, c6⟩ := hint
  refine ⟨?_, ?_, ?_, ?_, ?_, ?_⟩
  · intro u hu i hi
    rcases husers u hu with h2 | h2 | ⟨i2, hi2, hb⟩
    · exact hurlMono i (c1 u h2 i hi)
    · rw [h2] at hi; exact absurd hi (by simp)
    · rw [hi2] at hi
      simp only [Option.some.injEq] at hi
      rw [← hi]; exact hb
  · intro tw htw
    rcases htweets tw htw with h2 | ⟨hu2, hr2⟩
    · obtain ⟨hu3, hr3⟩ := c2 tw h2
      refine ⟨huserMono _ hu3, ?_⟩
      intro r hr
      exact huserMono r (hr3 r hr)
    · refine ⟨hu2, ?_⟩
      intro r hr
      rcases hr2 with h3 | ⟨rn, hrn, hrn2⟩
      · rw [h3] at hr; exact absurd hr (by simp)
      · rw [hrn] at hr
        simp only [Option.some.injEq] at hr
        rw [← hr]; exact hrn2
  · intro p hp
    rcases hturls p hp with h2 | h2
    · obtain ⟨h3, h4⟩ := c3 p h2
      exact ⟨htwMono _ h3, hurlMono _ h4⟩
    · exact h2
  · intro p hp
    rcases htm p hp with h2 | h2
    · obtain ⟨h3, h4⟩ := c4 p h2
      exact ⟨htwMono _ h3, huserMono _ h4⟩
    · exact h2
  · intro p hp
    rcases htt p hp with h2 | h2
    · exact htwMono _ (c5 p h2)
    · exact h2
  · intro p hp
    rcases htmed p hp with h2 | h2
    · obtain ⟨h3, h4⟩ := c6 p h2
      exact ⟨htwMono _ h3, hurlMono _ h4⟩
    · exact h2

/-- Decomposition of a committed run: either the idempotency gate found the
record and nothing else ran (the state is untouched), or the gate found
nothing and every step of the body succeeded in source order. -/
theorem insertTweetRun_ok {t : J} {db : Db} {o : Outcome} {dbF : Db}
    (h : insertTweetRun t db = .ok o dbF) :
    (o = .skippedAlreadyPresent ∧ dbF = db ∧ gateCheck t db = .ok true) ∨
    (o = .inserted ∧ gateCheck t db = .ok false ∧
      ∃ (uu : Option Nat) (dbA dbB dbC dbD dbE dbM dbG : Db) (f : Fields)
        (us ms med : List J) (idJ : J) (tags : List String),
        userUrlStep t db = .ok (uu, dbA) ∧
        insertUserStep t uu dbA = .ok dbB ∧
        extractTweetFields t = .ok f ∧
        replyStubStep t dbB = .ok dbC ∧
        tweetInsertStep t f dbC = .ok dbD ∧
        Jget t "id" .null = .ok idJ ∧
        urlsLoop idJ us dbD = .ok dbE ∧
        mentionsLoop idJ ms dbE = .ok dbM ∧
        tagsLoop idJ tags dbM = .ok dbG ∧
        mediaLoop idJ med dbG = .ok dbF) := by
  unfold insertTweetRun at h
  cases hg : gateCheck t db with
  | error e => simp only [hg] at h; exact RunResult.noConfusion h
  | ok gb =>
    cases gb with
    | true =>
      simp only [hg, RunResult.ok.injEq] at h
      exact Or.inl ⟨h.1.symm, h.2.symm, rfl⟩
    | false =>
      simp only [hg] at h
      cases hu : userUrlStep t db with
      | error e => simp only [hu] at h; exact RunResult.noConfusion h
      | ok p =>
        obtain ⟨uu, dbA⟩ := p
        simp only [hu] at h
        cases hb : insertUserStep t uu dbA with
        | error e => simp only [hb] at h; exact RunResult.noConfusion h
        | ok dbB =>
          simp only [hb] at h
          cases hf : extractTweetFields t with
          | error e => simp only [hf] at h; exact RunResult.noConfusion h
          | ok f =>
            simp only [hf] at h
            cases hc : replyStubStep t dbB with
            | error e => simp only [hc] at h; exact RunResult.noConfusion h
            | ok dbC =>
              simp only [hc] at h
              cases hd : tweetInsertStep t f dbC with
              | error e => simp only [hd] at h; exact RunResult.noConfusion h
              | ok dbD =>
                simp only [hd] at h
                cases hus : extractUrlsList t >>= Jiter with
                | error e => simp only [hus] at h; exact RunResult.noConfusion h
                | ok us =>
                  simp only [hus] at h
                  cases hid : Jget t "id" .null with
                  | error e => simp only [hid] at h; exact RunResult.noConfusion h
                  | ok idJ =>
                    simp only [hid] at h
                    cases he : urlsLoop idJ us dbD with
                    | error e => simp only [he] at h; exact RunResult.noConfusion h
                    | ok dbE =>
                      simp only [he] at h
                      cases hms : extractMentionsList t >>= Jiter with
                      | error e => simp only [hms] at h; exact RunResult.noConfusion h
                      | ok ms =>
                        simp only [hms] at h
                        cases hM : mentionsLoop idJ ms dbE with
                        | error e => simp only [hM] at h; exact RunResult.noConfusion h
                        | ok dbM =>
                          simp only [hM] at h
                          cases htc : extractTagContainers t with
                          | error e => simp only [htc] at h; exact RunResult.noConfusion h
                          | ok pc =>
                            obtain ⟨hs, cs⟩ := pc
                            simp only [htc] at h
                            cases htg : buildTags hs cs with
                            | error e => simp only [htg] at h; exact RunResult.noConfusion h
                            | ok tags =>
                              simp only [htg] at h
                              cases hG : tagsLoop idJ tags dbM with
                              | error e => simp only [hG] at h; exact RunResult.noConfusion h
                              | ok dbG =>
                                simp only [hG] at h
                                cases hmed : extractMedia t >>= Jiter with
                                | error e => simp only [hmed] at h; exact RunResult.noConfusion h
                                | ok med =>
                                  simp only [hmed] at h
                                  cases hm2 : mediaLoop idJ med dbG with
                                  | error e => simp only [hm2] at h; exact RunResult.noConfusion h
                                  | ok dbH =>
                                    simp only [hm2, RunResult.ok.injEq] at h
                                    obtain ⟨ho, hdb⟩ := h
                                    refine Or.inr ⟨ho.symm, rfl,
                                      uu, dbA, dbB, dbC, dbD, dbE, dbM, dbG, f,
                                      us, ms, med, idJ, tags,
                                      rfl, hb, rfl, hc, hd, rfl, he, hM, hG, ?_⟩
                                    rw [← hdb]
                                    exact hm2

/-- C3: a committed run preserves referential integrity — every foreign key
reference created by loading a record resolves at commit: the reply-target
author was stubbed before the tweets row referencing it, each mentioned
author was stubbed before its tweet_mentions row, and every
tweet_urls/tweet_media link id was resolved by `get_id_urls` before its
association row (the per-step lemmas `replyStubStep_facts`,
`mentionsLoop_facts`, `urlsLoop_facts`, `mediaLoop_facts`,
`tweetInsertStep_facts` each record that the referenced row exists at the
moment the referencing row is written). -/
theorem insert_tweet_preserves_ref_integrity (t : J) (db : Db) (o : Outcome)
    (dbF : Db) (hint : refIntegrity db) (h : insertTweetRun t db = .ok o dbF) :
    refIntegrity dbF := by
  rcases insertTweetRun_ok h with ⟨_, hdb, _⟩ |
    ⟨_, hg, uu, dbA, dbB, dbC, dbD, dbE, dbM, dbG, f, us, ms, med, idJ, tags,
      hu, hb, hf, hc, hd, hid, he, hM, hG, hm⟩
  · rw [hdb]; exact hint
  obtain ⟨u1, u2, u3, u4, u5, u6, u7, u8⟩ := userUrlStep_facts hu
  have hintA : refIntegrity dbA := by
    refine refIntegrity_step (fun u hu2 => Or.inl (u1 ▸ hu2))
      (fun k hk => by rw [hasUser_congr u1]; exact hk)
      (fun tw htw => Or.inl (u2 ▸ htw))
      (fun k hk => by rw [hasTweet_congr u2]; exact hk)
      u8
      (fun p hp => Or.inl (u3 ▸ hp))
      (fun p hp => Or.inl (u4 ▸ hp))
      (fun p hp => Or.inl (u5 ▸ hp))
      (fun p hp => Or.inl (u6 ▸ hp))
      hint
  obtain ⟨i1, i2, i3, i4, i5, i6, i7, ⟨un, hun, hunB⟩, irows⟩ := insertUserStep_facts hb
  have hintB : refIntegrity dbB := by
    refine refIntegrity_step ?_ i7
      (fun tw htw => Or.inl (i2 ▸ htw))
      (fun k hk => by rw [hasTweet_congr i2]; exact hk)
      (fun k hk => by rw [hasUrl_congr i1]; exact hk)
      (fun p hp => Or.inl (i3 ▸ hp))
      (fun p hp => Or.inl (i4 ▸ hp))
      (fun p hp => Or.inl (i5 ▸ hp))
      (fun p hp => Or.inl (i6 ▸ hp))
      hintA
    intro u hu2
    rcases irows u hu2 with h2 | h2
    · exact Or.inl h2
    · cases huu : uu with
      | none => rw [huu] at h2; exact Or.inr (Or.inl h2)
      | some i =>
        rw [huu] at h2
        refine Or.inr (Or.inr ⟨i, h2, ?_⟩)
        rw [hasUrl_congr i1]
        exact u7 i huu
  obtain ⟨r1, r2, r3, r4, r5, r6, r7, r8, rrows⟩ := replyStubStep_facts hc
  have hintC : refIntegrity dbC := by
    refine refIntegrity_step ?_ r7
      (fun tw htw => Or.inl (r2 ▸ htw))
      (fun k hk => by rw [hasTweet_congr r2]; exact hk)
      (fun k hk => by rw [hasUrl_congr r1]; exact hk)
      (fun p hp => Or.inl (r3 ▸ hp))
      (fun p hp => Or.inl (r4 ▸ hp))
      (fun p hp => Or.inl (r5 ▸ hp))
      (fun p hp => Or.inl (r6 ▸ hp))
      hintB
    intro u hu2
    rcases rrows u hu2 with h2 | h2
    · exact Or.inl h2
    · exact Or.inr (Or.inl h2)
  obtain ⟨d1, d2, d3, d4, d5, d6, d7, ⟨nid, hnid, hnidD⟩, drows⟩ := tweetInsertStep_facts hd
  have hidJnum : idJ = .num nid := by
    rw [hid] at hnid
    simpa using hnid
  have hintD : refIntegrity dbD := by
    refine refIntegrity_step
      (fun u hu2 => Or.inl (d1 ▸ hu2))
      (fun k hk => by rw [hasUser_congr d1]; exact hk)
      ?_ d7
      (fun k hk => by rw [hasUrl_congr d2]; exact hk)
      (fun p hp => Or.inl (d3 ▸ hp))
      (fun p hp => Or.inl (d4 ▸ hp))
      (fun p hp => Or.inl (d5 ▸ hp))
      (fun p hp => Or.inl (d6 ▸ hp))
      hintC
    intro tw htw
    rcases drows tw htw with h2 | ⟨⟨idU, hidU, hidEq⟩, hrepCase⟩
    · exact Or.inl h2
    right
    constructor
    · -- the posting author's row exists: written in the user upsert step
      have hun2 : (Jget t "user" (.obj []) >>= fun u => Jget u "id" .null)
          = .ok (.num un) := by
        obtain ⟨user, huser2, hsub2⟩ := bindOk.mp hun
        exact bindOk.mpr ⟨user, huser2, Jget_of_Jsub hsub2 _⟩
      rw [hun2] at hidU
      simp only [Except.ok.injEq, J.num.injEq] at hidU
      rw [hidEq, ← hidU]
      rw [hasUser_congr d1]
      exact r7 un hunB
    · rcases hrepCase with h3 | ⟨rn, hrn, hrn2⟩
      · exact Or.inl h3
      · refine Or.inr ⟨rn, hrn2, ?_⟩
        rw [hasUser_congr d1]
        exact r8 rn hrn
  obtain ⟨e1, e2, e3, e4, e5, e6, erows⟩ := urlsLoop_facts he
  have hasTweetE : dbE.hasTweet nid = true := by
    rw [hasTweet_congr e2]
    exact hnidD
  have hintE : refIntegrity dbE := by
    refine refIntegrity_step
      (fun u hu2 => Or.inl (e1 ▸ hu2))
      (fun k hk => by rw [hasUser_congr e1]; exact hk)
      (fun tw htw => Or.inl (e2 ▸ htw))
      (fun k hk => by rw [hasTweet_congr e2]; exact hk)
      e6 ?_
      (fun p hp => Or.inl (e3 ▸ hp))
      (fun p hp => Or.inl (e4 ▸ hp))
      (fun p hp => Or.inl (e5 ▸ hp))
      hintD
    intro p hp
    rcases erows p hp with h2 | ⟨⟨n, hn, hp1⟩, hurl⟩
    · exact Or.inl h2
    · right
      refine ⟨?_, hurl⟩
      rw [hidJnum] at hn
      simp only [J.num.injEq] at hn
      rw [hp1, ← hn]
      exact hasTweetE
  obtain ⟨m1, m2, m3, m4, m5, m6, musers, mrows⟩ := mentionsLoop_facts hM
  have hasTweetM : dbM.hasTweet nid = true := by
    rw [hasTweet_congr m1]
    exact hasTweetE
  have hintM : refIntegrity dbM := by
    refine refIntegrity_step ?_ m6
      (fun tw htw => Or.inl (m1 ▸ htw))
      (fun k hk => by rw [hasTweet_congr m1]; exact hk)
      (fun k hk => by rw [hasUrl_congr m2]; exact hk)
      (fun p hp => Or.inl (m3 ▸ hp))
      ?_
      (fun p hp => Or.inl (m4 ▸ hp))
      (fun p hp => Or.inl (m5 ▸ hp))
      hintE
    · intro u hu2
      rcases musers u hu2 with h2 | h2
      · exact Or.inl h2
      · exact Or.inr (Or.inl h2)
    · intro p hp
      rcases mrows p hp with h2 | ⟨⟨n, hn, hp1⟩, huser2⟩
      · exact Or.inl h2
      · right
        refine ⟨?_, huser2⟩
        rw [hidJnum] at hn
        simp only [J.num.injEq] at hn
        rw [hp1, ← hn]
        exact hasTweetM
  obtain ⟨g1, g2, g3, g4, g5, g6, grows⟩ := tagsLoop_facts hG
  have hasTweetG : dbG.hasTweet nid = true := by
    rw [hasTweet_congr g2]
    exact hasTweetM
  have hintG : refIntegrity dbG := by
    refine refIntegrity_step
      (fun u hu2 => Or.inl (g1 ▸ hu2))
      (fun k hk => by rw [hasUser_congr g1]; exact hk)
      (fun tw htw => Or.inl (g2 ▸ htw))
      (fun k hk => by rw [hasTweet_congr g2]; exact hk)
      (fun k hk => by rw [hasUrl_congr g3]; exact hk)
      (fun p hp => Or.inl (g4 ▸ hp))
      (fun p hp => Or.inl (g5 ▸ hp))
      ?_
      (fun p hp => Or.inl (g6 ▸ hp))
      hintM
    intro p hp
    rcases grows p hp with h2 | ⟨n, hn, hp1⟩
    · exact Or.inl h2
    · right
      rw [hidJnum] at hn
      simp only [J.num.injEq] at hn
      rw [hp1, ← hn]
      exact hasTweetG
  obtain ⟨f1, f2, f3, f4, f5, f6, frows⟩ := mediaLoop_facts hm
  have hasTweetF : dbF.hasTweet nid = true := by
    rw [hasTweet_congr f2]
    exact hasTweetG
  refine refIntegrity_step
    (fun u hu2 => Or.inl (f1 ▸ hu2))
    (fun k hk => by rw [hasUser_congr f1]; exact hk)
    (fun tw htw => Or.inl (f2 ▸ htw))
    (fun k hk => by rw [hasTweet_congr f2]; exact hk)
    f6
    (fun p hp => Or.inl (f3 ▸ hp))
    (fun p hp => Or.inl (f4 ▸ hp))
    (fun p hp => Or.inl (f5 ▸ hp))
    ?_
    hintG
  intro p hp
  rcases frows p hp with h2 | ⟨⟨n, hn, hp1⟩, hurl⟩
  · exact Or.inl h2
  · right
    refine ⟨?_, hurl⟩
    rw [hidJnum] at hn
    simp only [J.num.injEq] at hn
    rw [hp1, ← hn]
    exact hasTweetF

/-- Witness for C3: loading the all-features record `tOk` into the empty
(trivially integral) state commits a state that satisfies referential
integrity. -/
theorem insert_tweet_preserves_ref_integrity_witness :
    refIntegrity (insertTweetRun tOk emptyDb).stateOf :=
  insert_tweet_preserves_ref_integrity tOk emptyDb .inserted
    ((insertTweetRun tOk emptyDb).stateOf)
    (by simp [refIntegrity, emptyDb]) (by rfl)

/-- C1: after a record is loaded (`Inserted`), loading the same record again
returns `SkippedAlreadyPresent` and the final state is exactly the state
the second call started with: the gate's select finds the tweets row the
first run inserted, and `insert_tweet` returns before executing any other
statement, so no table is written on the second run. -/
theorem insert_tweet_idempotent_skip (t : J) (db db1 : Db)
    (h : load_record t db = (.inserted, db1)) :
    load_record t db1 = (.skippedAlreadyPresent, db1) := by
  have hrun : insertTweetRun t db = .ok .inserted db1 := by
    rw [load_record] at h
    cases hx : insertTweetRun t db with
    | ok o dbx =>
      rw [hx] at h
      simp only [Prod.mk.injEq] at h
      rw [h.1, h.2]
    | err e dbx =>
      rw [hx] at h
      simp only [Prod.mk.injEq] at h
      exact absurd h.1 (by simp)
  rcases insertTweetRun_ok hrun with ⟨hsk, _, _⟩ |
    ⟨_, hg, uu, dbA, dbB, dbC, dbD, dbE, dbM, dbG, f, us, ms, med, idJ, tags,
      hu, hb, hf, hc, hd, hid, he, hM, hG, hm⟩
  · exact absurd hsk (by simp)
  obtain ⟨d1, d2, d3, d4, d5, d6, d7, ⟨nid, hnid, hnidD⟩, _⟩ := tweetInsertStep_facts hd
  have hidJnum : idJ = .num nid := by
    rw [hid] at hnid
    simpa using hnid
  obtain ⟨_, e2, _, _, _, _, _⟩ := urlsLoop_facts he
  obtain ⟨m1, _, _, _, _, _, _, _⟩ := mentionsLoop_facts hM
  obtain ⟨_, g2, _, _, _, _, _⟩ := tagsLoop_facts hG
  obtain ⟨_, f2, _, _, _, _, _⟩ := mediaLoop_facts hm
  have hT : db1.hasTweet nid = true := by
    rw [hasTweet_congr f2, hasTweet_congr g2, hasTweet_congr m1, hasTweet_congr e2]
    exact hnidD
  simp only [gateCheck, bindOk] at hg
  obtain ⟨idJ0, hsub0, _⟩ := hg
  have hgq : Jget t "id" .null = .ok idJ0 := Jget_of_Jsub hsub0 _
  rw [hid] at hgq
  simp only [Except.ok.injEq] at hgq
  have hsub : Jsub t "id" = .ok (.num nid) := by
    rw [hsub0, ← hgq, hidJnum]
  have hgate2 : gateCheck t db1 = .ok true := by
    simp only [gateCheck, bindOk]
    exact ⟨.num nid, hsub, by simp [hT]⟩
  have hrun2 : insertTweetRun t db1 = .ok .skippedAlreadyPresent db1 := by
    unfold insertTweetRun
    simp only [hgate2]
  rw [load_record, hrun2]

/-- Witness for C1: loading `tOk` twice into the empty state — the second
load is skipped and leaves the committed state untouched. -/
theorem insert_tweet_idempotent_skip_witness :
    load_record tOk (load_record tOk emptyDb).2 =
      (.skippedAlreadyPresent, (load_record tOk emptyDb).2) :=
  insert_tweet_idempotent_skip tOk emptyDb (load_record tOk emptyDb).2 (by rfl)
